import Mathlib

/-!
# Verification of the chromiumoxide CDP driver core

Shallow embedding of the three source files of the repository:

* `src/cmd.rs`      — the `CommandChain` sequencer,
* `src/handler/frame.rs` — `Frame`, `FrameManager`, `NavigationWatcher`,
* `src/tab.rs`      — the `execute` response dispatch.

Modelling conventions:

* `Instant` and `Duration` are `Nat` (milliseconds).
* `HashMap<FrameId, Frame>` is an association list `List (FrameId × Frame)`
  whose insert replaces an existing binding; `HashSet` is a `List` with
  membership-checked insertion.
* Rust functions that can `panic!`/`expect` return `Option`, `none`
  modelling the panic.
* Recursion that Rust performs over the mutable frame map
  (`remove_frames_recursively`, `check_lifecycle`) is given an explicit
  fuel argument; every call site passes fuel strictly larger than the
  number of frames in the map, which is an upper bound on the recursion
  depth of the Rust original (each level of recursion first removes a map
  entry, resp. steps to a child of an acyclic tree).
-/

namespace Chromiumoxide

/-- `handler::REQUEST_TIMEOUT` in milliseconds. -/
def REQUEST_TIMEOUT : Nat := 20000

/-- `error::DeadlineExceeded { now, deadline }`. -/
structure DeadlineExceeded where
  now : Nat
  deadline : Nat
  deriving DecidableEq, Repr

/-! ## `src/cmd.rs` — CommandChain -/

/-- Result of `CommandChain::poll` (a `Poll<Option<Result<..>>>` in the
source).  `P` is the opaque `serde_json::Value` parameter payload. -/
inductive ChainPoll (P : Type) where
  | pending : ChainPoll P
  | readyNone : ChainPoll P
  | readyStep (method : String) (params : P) : ChainPoll P
  | readyErr (err : DeadlineExceeded) : ChainPoll P
  deriving DecidableEq, Repr

/-- `cmd::CommandChain`: FIFO queue of `(method, params)`, at most one
command in flight (`waiting`), per-step timeout. -/
structure CommandChain (P : Type) where
  cmds : List (String × P)
  waiting : Option (String × Nat)
  timeout : Nat
  deriving DecidableEq, Repr

namespace CommandChain

/-- `CommandChain::new`. -/
def new (cmds : List (String × P)) : CommandChain P :=
  { cmds := cmds, waiting := none, timeout := REQUEST_TIMEOUT }

/-- `CommandChain::push_back`. -/
def push_back (c : CommandChain P) (method : String) (params : P) : CommandChain P :=
  { c with cmds := c.cmds ++ [(method, params)] }

/-- `CommandChain::received_response`: clear `waiting` if the identifier
matches, returning whether it matched. -/
def received_response (c : CommandChain P) (identifier : String) :
    Bool × CommandChain P :=
  match c.waiting with
  | some (m, _) =>
      if m = identifier then (true, { c with waiting := none }) else (false, c)
  | none => (false, c)

/-- `CommandChain::poll`: timeout check on the in-flight step, else issue
the next queued step, else done. -/
def poll (c : CommandChain P) (now : Nat) : ChainPoll P × CommandChain P :=
  match c.waiting with
  | some (_, deadline) =>
      if now > deadline then
        (ChainPoll.readyErr ⟨now, deadline⟩, c)
      else
        (ChainPoll.pending, c)
  | none =>
      match c.cmds with
      | [] => (ChainPoll.readyNone, c)
      | (method, val) :: rest =>
          (ChainPoll.readyStep method val,
           { c with cmds := rest, waiting := some (method, now + c.timeout) })

end CommandChain

/-! ## `src/handler/frame.rs` — data model -/

/-- `page::FrameId` (an opaque string identifier). -/
abbrev FrameId := String

/-- `network::LoaderId` (an opaque string identifier). -/
abbrev LoaderId := String

/-- `frame::NavigationId(usize)`. -/
abbrev NavigationId := Nat

/-- A `HashSet` modelled as a duplicate-free-by-construction list:
`HashSet::insert` is a no-op when the element is already present. -/
def setInsert (s : List α) (a : α) [DecidableEq α] : List α :=
  if a ∈ s then s else a :: s

/-- `HashSet::remove`. -/
def setErase (s : List α) (a : α) [DecidableEq α] : List α :=
  s.filter (fun x => x ≠ a)

/-- The frame map `HashMap<FrameId, Frame>` as an association list. -/
abbrev FrameMap (F : Type) := List (FrameId × F)

/-- `HashMap::get`. -/
def lookupF (m : FrameMap F) (k : FrameId) : Option F :=
  match m with
  | [] => none
  | (k', f) :: rest => if k' = k then some f else lookupF rest k

/-- `HashMap::remove` (keeps the rest of the map). -/
def eraseF (m : FrameMap F) (k : FrameId) : FrameMap F :=
  m.filter (fun e => e.1 ≠ k)

/-- `HashMap::insert`, replacing an existing binding. -/
def insertF (m : FrameMap F) (k : FrameId) (f : F) : FrameMap F :=
  (k, f) :: eraseF m k

/-- `HashMap::get_mut` followed by an in-place update; a no-op when the
key is absent (keys are unique, so updating the first binding is the
hash-map update). -/
def updateF (m : FrameMap F) (k : FrameId) (g : F → F) : FrameMap F :=
  match m with
  | [] => []
  | (k', f) :: rest =>
      if k' = k then (k', g f) :: rest else (k', f) :: updateF rest k g

/-- `page::Frame` as produced by the CDP wire (the event payload type
`Frame` of the protocol, called `CdpFrame` in the source imports). -/
structure CdpFrame where
  id : FrameId
  parent_id : Option FrameId
  loader_id : LoaderId
  url : String
  url_fragment : Option String
  name : Option String
  deriving DecidableEq, Repr

/-- `frame::Frame`: a node of the frame tree. -/
structure Frame where
  parent_frame : Option FrameId
  id : FrameId
  loader_id : Option LoaderId
  url : Option String
  child_frames : List FrameId
  name : Option String
  lifecycle_events : List String
  deriving DecidableEq, Repr

namespace Frame

/-- `Frame::new`. -/
def new (id : FrameId) : Frame :=
  { parent_frame := none, id := id, loader_id := none, url := none,
    child_frames := [], name := none, lifecycle_events := [] }

/-- The child constructed by `Frame::with_parent` (the accompanying
mutation of the parent's child set is performed at the call site). -/
def with_parent (id : FrameId) (parentId : FrameId) : Frame :=
  { parent_frame := some parentId, id := id, loader_id := none, url := none,
    child_frames := [], name := none, lifecycle_events := [] }

/-- `Frame::navigated`: apply name and effective URL
(`url + url_fragment` when a fragment is present). -/
def navigated (f : Frame) (frame : CdpFrame) : Frame :=
  { f with
    name := frame.name,
    url := some (match frame.url_fragment with
                 | some fragment => frame.url ++ fragment
                 | none => frame.url) }

/-- `Frame::navigated_within_url`. -/
def navigated_within_url (f : Frame) (url : String) : Frame :=
  { f with url := some url }

/-- `Frame::on_loading_stopped`: inject the two synthetic lifecycle
entries. -/
def on_loading_stopped (f : Frame) : Frame :=
  { f with lifecycle_events :=
      setInsert (setInsert f.lifecycle_events "DOMContentLoaded") "load" }

end Frame

/-- `page::FrameTree`: the bulk snapshot.  The source's
`child_frames: Option<Vec<FrameTree>>` is modelled as a plain list
(`None` behaves exactly as the empty vector in `on_frame_tree`). -/
inductive FrameTree where
  | mk (frame : CdpFrame) (child_frames : List FrameTree)

/-- The CDP event payloads consumed by the frame manager. -/
structure EventFrameDetached where
  frame_id : FrameId
  deriving DecidableEq, Repr

structure EventNavigatedWithinDocument where
  frame_id : FrameId
  url : String
  deriving DecidableEq, Repr

structure EventFrameStoppedLoading where
  frame_id : FrameId
  deriving DecidableEq, Repr

structure EventLifecycleEvent where
  frame_id : FrameId
  loader_id : LoaderId
  name : String
  deriving DecidableEq, Repr

/-- `chromiumoxid_types::Request`: the outbound wire message.  `params`
(`serde_json::Value`, an object in every use here) is modelled as a
string-keyed association list. -/
structure Request where
  method : String
  session_id : Option String
  params : List (String × String)
  deriving DecidableEq, Repr

/-- `frame::FrameNavigationRequest`. -/
structure FrameNavigationRequest where
  id : NavigationId
  req : Request
  timeout : Nat
  deriving DecidableEq, Repr

/-- `FrameNavigationRequest::set_frame_id`: insert the frame id into the
params if that key is vacant. -/
def FrameNavigationRequest.set_frame_id (r : FrameNavigationRequest)
    (frame_id : FrameId) : FrameNavigationRequest :=
  match lookupF r.req.params "frameId" with
  | some _ => r
  | none => { r with req := { r.req with
      params := r.req.params ++ [("frameId", frame_id)] } }

/-- `frame::NavigationWatcher`. -/
structure NavigationWatcher where
  id : NavigationId
  expected_lifecycle : List String
  frame_id : FrameId
  loader_id : Option LoaderId
  same_document_navigation : Bool
  deriving DecidableEq, Repr

namespace NavigationWatcher

/-- `NavigationWatcher::until_page_load`. -/
def until_page_load (id : NavigationId) (frame : FrameId)
    (loader_id : Option LoaderId) : NavigationWatcher :=
  { id := id, expected_lifecycle := ["load"], frame_id := frame,
    loader_id := loader_id, same_document_navigation := false }

/-- `NavigationWatcher::is_lifecycle_complete`. -/
def is_lifecycle_complete (w : NavigationWatcher) : Bool :=
  w.expected_lifecycle.isEmpty

/-- `NavigationWatcher::on_frame_navigated_within_document` (note: this
function has no caller anywhere in the source). -/
def on_frame_navigated_within_document (w : NavigationWatcher)
    (ev : EventNavigatedWithinDocument) : NavigationWatcher :=
  if w.frame_id = ev.frame_id then { w with same_document_navigation := true }
  else w

end NavigationWatcher

/-- `frame::NavigationOk`. -/
inductive NavigationOk where
  | sameDocumentNavigation (id : NavigationId)
  | newDocumentNavigation (id : NavigationId)
  deriving DecidableEq, Repr

/-- `frame::NavigationError`. -/
inductive NavigationError where
  | timeout (err : DeadlineExceeded) (id : NavigationId)
  | frameNotFound (frame : FrameId) (id : NavigationId)
  deriving DecidableEq, Repr

instance : DecidableEq (Except NavigationError NavigationOk) :=
  fun a b =>
    match a, b with
    | .error e, .error e' =>
        if h : e = e' then isTrue (by rw [h])
        else isFalse (by intro hc; cases hc; exact h rfl)
    | .ok v, .ok v' =>
        if h : v = v' then isTrue (by rw [h])
        else isFalse (by intro hc; cases hc; exact h rfl)
    | .error _, .ok _ => isFalse (by intro h; cases h)
    | .ok _, .error _ => isFalse (by intro h; cases h)

/-- `frame::FrameEvent`, the output of `FrameManager::poll`. -/
inductive FrameEvent where
  | navigationResult (res : Except NavigationError NavigationOk)
  | navigationRequest (id : NavigationId) (req : Request)
  deriving DecidableEq, Repr

/-- `frame::FrameManager`. -/
structure FrameManager where
  main_frame : Option FrameId
  frames : FrameMap Frame
  timeout : Nat
  pending_navigations : List (FrameNavigationRequest × NavigationWatcher)
  navigation : Option (NavigationWatcher × Nat)
  deriving DecidableEq, Repr

/-- `FrameManager::default`. -/
def FrameManager.default : FrameManager :=
  { main_frame := none, frames := [], timeout := REQUEST_TIMEOUT,
    pending_navigations := [], navigation := none }

/-! ## `FrameManager::remove_frames_recursively`

The Rust function removes `id` from the map, recurses into each recorded
child (the map has already shrunk by one entry at every deeper level, so
the recursion depth is bounded by the map size), and finally unlinks the
removed frame from its parent's child set.  `removeRec`/`removeList`
embed exactly this, with the depth bound made explicit as fuel; wrappers
pass `map size + 1`, which the bound shows is never exhausted. -/

def removeRec : Nat → FrameMap Frame → FrameId → FrameMap Frame
  | 0, m, _ => m
  | fuel + 1, m, id =>
      match lookupF m id with
      | none => m
      | some f =>
          let m1 := eraseF m id
          let m2 := f.child_frames.foldl (fun acc c => removeRec fuel acc c) m1
          match f.parent_frame with
          | some parentId =>
              updateF m2 parentId
                (fun p => { p with child_frames := setErase p.child_frames f.id })
          | none => m2

/-- The `for child in &frame.child_frames { self.remove_frames_recursively(child) }`
loop: thread the shrinking map through the recursive removals. -/
def removeList (fuel : Nat) (m : FrameMap Frame) (cs : List FrameId) :
    FrameMap Frame :=
  cs.foldl (fun acc c => removeRec fuel acc c) m

namespace FrameManager

/-- `FrameManager::remove_frames_recursively` (the returned
`Option<Frame>` is discarded by every caller and not modelled). -/
def remove_frames_recursively (m : FrameMap Frame) (id : FrameId) :
    FrameMap Frame :=
  removeRec (m.length + 1) m id

/-- `FrameManager::check_lifecycle`: every expected lifecycle name is
present on the frame and, recursively, on every child present in the map
(`filter_map` skips absent children).  The recursion depth of the Rust
original is bounded by the acyclic map's size; fuel makes the bound
explicit, `true` at exhaustion being unreachable at the fuel used by
`poll`. -/
def check_lifecycle : Nat → FrameMap Frame → NavigationWatcher → Frame → Bool
  | 0, _, _, _ => true
  | fuel + 1, frames, watcher, frame =>
      watcher.expected_lifecycle.all
        (fun ev => frame.lifecycle_events.contains ev)
      && (frame.child_frames.filterMap (fun c => lookupF frames c)).all
           (fun f => check_lifecycle fuel frames watcher f)

/-- `FrameManager::check_lifecycle_complete`. -/
def check_lifecycle_complete (fuel : Nat) (frames : FrameMap Frame)
    (watcher : NavigationWatcher) (frame : Frame) : Option NavigationOk :=
  if ¬ check_lifecycle fuel frames watcher frame then none
  else if frame.loader_id = watcher.loader_id
          ∧ ¬ watcher.same_document_navigation then none
  else if watcher.same_document_navigation then
    some (NavigationOk.sameDocumentNavigation watcher.id)
  else if frame.loader_id ≠ watcher.loader_id then
    some (NavigationOk.newDocumentNavigation watcher.id)
  else none

/-- `FrameManager::poll`.  The source reads `Instant::now()` twice (the
deadline comparison and the fresh deadline of a newly activated
navigation); both are modelled by the single `now` argument. -/
def poll (fm : FrameManager) (now : Nat) : Option FrameEvent × FrameManager :=
  match fm.navigation with
  | some (watcher, deadline) =>
      if now > deadline then
        (some (FrameEvent.navigationResult (Except.error
            (NavigationError.timeout ⟨now, deadline⟩ watcher.id))),
         { fm with navigation := none })
      else
        match lookupF fm.frames watcher.frame_id with
        | some frame =>
            match check_lifecycle_complete (fm.frames.length + 1) fm.frames
                    watcher frame with
            | some nav =>
                (some (FrameEvent.navigationResult (Except.ok nav)),
                 { fm with navigation := none })
            | none => (none, { fm with navigation := some (watcher, deadline) })
        | none =>
            (some (FrameEvent.navigationResult (Except.error
                (NavigationError.frameNotFound watcher.frame_id watcher.id))),
             { fm with navigation := none })
  | none =>
      match fm.pending_navigations with
      | [] => (none, fm)
      | (req, watcher) :: rest =>
          (some (FrameEvent.navigationRequest req.id req.req),
           { fm with pending_navigations := rest,
                     navigation := some (watcher, now + REQUEST_TIMEOUT) })

/-- `FrameManager::navigate_frame`. -/
def navigate_frame (fm : FrameManager) (frame_id : FrameId)
    (req : FrameNavigationRequest) : FrameManager :=
  let loader_id := (lookupF fm.frames frame_id).bind (fun f => f.loader_id)
  let watcher := NavigationWatcher.until_page_load req.id frame_id loader_id
  let req := req.set_frame_id frame_id
  { fm with pending_navigations := fm.pending_navigations ++ [(req, watcher)] }

/-- `FrameManager::goto`: navigate the current main frame; silently a
no-op when there is none. -/
def goto (fm : FrameManager) (req : FrameNavigationRequest) : FrameManager :=
  match fm.main_frame with
  | some frame_id => navigate_frame fm frame_id req
  | none => fm

/-- `FrameManager::on_frame_attached`: ignored when the frame is already
tracked or the parent is unknown. -/
def on_frame_attached (fm : FrameManager) (frame_id : FrameId)
    (parent_frame_id : Option FrameId) : FrameManager :=
  if (lookupF fm.frames frame_id).isSome then fm
  else
    match parent_frame_id with
    | none => fm
    | some pid =>
        match lookupF fm.frames pid with
        | none => fm
        | some _ =>
            let withParent := updateF fm.frames pid
              (fun p => { p with child_frames := setInsert p.child_frames frame_id })
            { fm with frames :=
                insertF withParent frame_id (Frame.with_parent frame_id pid) }

/-- `FrameManager::on_frame_detached`. -/
def on_frame_detached (fm : FrameManager) (event : EventFrameDetached) :
    FrameManager :=
  { fm with frames := remove_frames_recursively fm.frames event.frame_id }

/-- `FrameManager::on_frame_navigated`.  `none` models the
`expect("Main frame is tracked.")` panic: a top-level navigation while
`main_frame` names a frame absent from the map. -/
def on_frame_navigated (fm : FrameManager) (frame : CdpFrame) :
    Option FrameManager :=
  if frame.parent_id.isSome then
    match lookupF fm.frames frame.id with
    | none => some fm
    | some f =>
        let m1 := eraseF fm.frames frame.id
        let m2 := removeList (m1.length + 1) m1 f.child_frames
        let f := Frame.navigated { f with child_frames := [] } frame
        some { fm with frames := insertF m2 frame.id f }
  else
    match fm.main_frame with
    | some main =>
        match lookupF fm.frames main with
        | none => none
        | some mainFrame =>
            let m1 := eraseF fm.frames main
            let m2 := removeList (m1.length + 1) m1 mainFrame.child_frames
            let f := Frame.navigated
              { mainFrame with child_frames := [], id := frame.id } frame
            some { fm with main_frame := some f.id,
                           frames := insertF m2 f.id f }
    | none =>
        let f := Frame.navigated (Frame.new frame.id) frame
        some { fm with main_frame := some f.id,
                       frames := insertF fm.frames f.id f }

/-- `FrameManager::on_frame_navigated_within_document`: update the
frame's URL only (no watcher is notified anywhere in this function). -/
def on_frame_navigated_within_document (fm : FrameManager)
    (event : EventNavigatedWithinDocument) : FrameManager :=
  { fm with frames := (updateF fm.frames event.frame_id
      (fun f => f.navigated_within_url event.url)) }

/-- `FrameManager::on_frame_stopped_loading`. -/
def on_frame_stopped_loading (fm : FrameManager)
    (event : EventFrameStoppedLoading) : FrameManager :=
  { fm with frames := (updateF fm.frames event.frame_id
      (fun f => f.on_loading_stopped)) }

/-- `FrameManager::on_page_lifecycle_event`: on `"init"` replace the
loader id and clear the lifecycle set; always insert the event name. -/
def on_page_lifecycle_event (fm : FrameManager) (event : EventLifecycleEvent) :
    FrameManager :=
  { fm with frames := (updateF fm.frames event.frame_id
      (fun f =>
        let f := if event.name = "init" then
            { f with loader_id := some event.loader_id, lifecycle_events := [] }
          else f
        { f with lifecycle_events := setInsert f.lifecycle_events event.name })) }

end FrameManager

mutual

/-- `FrameManager::on_frame_tree`: attach, navigate, then recurse into
the children (`onFrameTrees`); propagates the possible
`on_frame_navigated` panic. -/
def onFrameTree (fm : FrameManager) : FrameTree → Option FrameManager
  | FrameTree.mk frame children =>
      let fm := fm.on_frame_attached frame.id frame.parent_id
      match fm.on_frame_navigated frame with
      | none => none
      | some fm => onFrameTrees fm children

def onFrameTrees (fm : FrameManager) : List FrameTree → Option FrameManager
  | [] => some fm
  | t :: ts =>
      match onFrameTree fm t with
      | none => none
      | some fm => onFrameTrees fm ts

end

/-! ## `src/tab.rs` — `execute` response dispatch

`execute` sends the command and awaits the `Response { id, result?,
error? }` on its one-shot slot; the transport part is external.  What
`src/tab.rs` itself decides — how a delivered response maps to the
caller-visible outcome — is the pure match at the end of `execute`,
embedded here.  `J` is the opaque `serde_json::Value`, `R` the command's
typed response shape, and `decode` is `serde_json::from_value`, which can
fail (`none`). -/

/-- A delivered `Response`: `id`, optional `result`, optional `error`. -/
structure WireResponse (J : Type) where
  id : Nat
  result : Option J
  error : Option (Int × String)
  deriving DecidableEq, Repr

/-- The caller-visible outcome of `execute` for a delivered response. -/
inductive ExecuteOutcome (R : Type) where
  /-- `Ok(CommandResponse { .. })`: the `result` value decoded. -/
  | ok (r : R)
  /-- `serde_json::from_value` failed on a present `result` value. -/
  | deserializationError
  /-- The peer's `error` object, surfaced verbatim. -/
  | protocolError (code : Int) (message : String)
  /-- Neither `result` nor `error`: `Err(anyhow!("Empty Response"))`. -/
  | emptyResponse
  deriving DecidableEq, Repr

/-- The response-to-outcome dispatch of `tab::execute`: first a present
`result` (decoded, with decode failure surfaced), else a present
`error`, else the empty-response error. -/
def execute_dispatch (decode : J → Option R) (resp : WireResponse J) :
    ExecuteOutcome R :=
  match resp.result with
  | some v =>
      match decode v with
      | some r => ExecuteOutcome.ok r
      | none => ExecuteOutcome.deserializationError
  | none =>
      match resp.error with
      | some (code, message) => ExecuteOutcome.protocolError code message
      | none => ExecuteOutcome.emptyResponse

/-- `NavigationOk::navigation_id`. -/
def NavigationOk.navigation_id : NavigationOk → NavigationId
  | NavigationOk.sameDocumentNavigation id => id
  | NavigationOk.newDocumentNavigation id => id

/-- `NavigationError::navigation_id`. -/
def NavigationError.navigation_id : NavigationError → NavigationId
  | NavigationError.timeout _ id => id
  | NavigationError.frameNotFound _ id => id

/-- The navigation id carried by a `FrameEvent`. -/
def FrameEvent.navId : FrameEvent → NavigationId
  | FrameEvent.navigationRequest id _ => id
  | FrameEvent.navigationResult (Except.ok r) => r.navigation_id
  | FrameEvent.navigationResult (Except.error e) => e.navigation_id

/-- A frame may only gain lifecycle events while keeping its identity,
parent, loader and children fixed (the effect of the non-structural
events on any single frame). -/
def Frame.Grows (f f' : Frame) : Prop :=
  f'.id = f.id ∧ f'.parent_frame = f.parent_frame
  ∧ f'.loader_id = f.loader_id ∧ f'.child_frames = f.child_frames
  ∧ ∀ ev, ev ∈ f.lifecycle_events → ev ∈ f'.lifecycle_events

/-- Pointwise `Frame.Grows` between two frame maps with the same keys. -/
def MapGrows (m m' : FrameMap Frame) : Prop :=
  (∀ k f, lookupF m k = some f →
    ∃ f', lookupF m' k = some f' ∧ f.Grows f')
  ∧ (∀ k, lookupF m k = none → lookupF m' k = none)

/-- One externally triggered operation on a `FrameManager`: the event
handlers, the navigation entry points and `poll`. -/
inductive Step where
  | attached (frame_id : FrameId) (parent : Option FrameId)
  | navigated (frame : CdpFrame)
  | navigatedWithinDocument (ev : EventNavigatedWithinDocument)
  | stoppedLoading (ev : EventFrameStoppedLoading)
  | lifecycle (ev : EventLifecycleEvent)
  | detached (ev : EventFrameDetached)
  | frameTree (t : FrameTree)
  | gotoReq (req : FrameNavigationRequest)
  | navigateFrame (frame_id : FrameId) (req : FrameNavigationRequest)
  | poll (now : Nat)

/-- Whether a step submits a navigation request with id `n`. -/
def Step.usesNavId (s : Step) (n : NavigationId) : Prop :=
  match s with
  | Step.gotoReq req => req.id = n
  | Step.navigateFrame _ req => req.id = n
  | _ => False

/-- Apply one step; `none` models a panic, and the optional `FrameEvent`
is what `poll` emitted. -/
def applyStep (fm : FrameManager) : Step → Option (FrameManager × Option FrameEvent)
  | Step.attached id p => some (fm.on_frame_attached id p, none)
  | Step.navigated cf => (fm.on_frame_navigated cf).map (fun fm => (fm, none))
  | Step.navigatedWithinDocument ev =>
      some (fm.on_frame_navigated_within_document ev, none)
  | Step.stoppedLoading ev => some (fm.on_frame_stopped_loading ev, none)
  | Step.lifecycle ev => some (fm.on_page_lifecycle_event ev, none)
  | Step.detached ev => some (fm.on_frame_detached ev, none)
  | Step.frameTree t => (onFrameTree fm t).map (fun fm => (fm, none))
  | Step.gotoReq req => some (fm.goto req, none)
  | Step.navigateFrame fid req => some (fm.navigate_frame fid req, none)
  | Step.poll now => some ((fm.poll now).2, (fm.poll now).1)

/-- Run a list of steps, collecting the emitted events; a panicking step
ends the run. -/
def runTrace (fm : FrameManager) : List Step → FrameManager × List FrameEvent
  | [] => (fm, [])
  | s :: ss =>
      match applyStep fm s with
      | none => (fm, [])
      | some (fm', evOpt) =>
          let rest := runTrace fm' ss
          (rest.1, evOpt.toList ++ rest.2)

/-- Every navigation id recorded in the manager: ids of queued requests
and their watchers, and the id of the active watcher. -/
def navIds (fm : FrameManager) : List NavigationId :=
  fm.pending_navigations.flatMap (fun x => [x.1.id, x.2.id])
  ++ (match fm.navigation with
      | some (w, _) => [w.id]
      | none => [])

/-! ## Frame-tree well-formedness (the C8 invariant) -/

/-- Every binding's `id` field equals its key. -/
def KeyMatchM (m : FrameMap Frame) : Prop :=
  ∀ k f, lookupF m k = some f → f.id = k

/-- Every recorded child resolves (or is excused by `B`), with the
matching back-pointer. -/
def ChildOkB (B : FrameId → Prop) (m : FrameMap Frame) : Prop :=
  ∀ k f c, lookupF m k = some f → c ∈ f.child_frames →
    B c ∨ ∃ g, lookupF m c = some g ∧ g.parent_frame = some k

/-- Every recorded parent resolves, with the matching child entry. -/
def ParentOkS (m : FrameMap Frame) : Prop :=
  ∀ k f p, lookupF m k = some f → f.parent_frame = some p →
    ∃ g, lookupF m p = some g ∧ k ∈ g.child_frames

/-- A rank function witnessing acyclicity of the parent relation. -/
def RankOk (m : FrameMap Frame) (rank : FrameId → Nat) : Prop :=
  ∀ k f p, lookupF m k = some f → f.parent_frame = some p → rank p < rank k

/-- Frames with no parent are exactly the tracked main frame. -/
def RootMainOk (fm : FrameManager) : Prop :=
  ∀ k f, lookupF fm.frames k = some f → f.parent_frame = none →
    fm.main_frame = some k

/-- The inductive invariant of the frame manager. -/
def Wf (fm : FrameManager) : Prop :=
  KeyMatchM fm.frames
  ∧ ChildOkB (fun _ => False) fm.frames
  ∧ ParentOkS fm.frames
  ∧ RootMainOk fm
  ∧ ∃ rank : FrameId → Nat, RankOk fm.frames rank

/-- One parent-link step in the frame map. -/
def parentStep (m : FrameMap Frame) (a b : FrameId) : Prop :=
  ∃ f, lookupF m a = some f ∧ f.parent_frame = some b

/-- An entry may only lose children; every other field is unchanged. -/
def ShrinkF (f f' : Frame) : Prop :=
  f'.id = f.id ∧ f'.parent_frame = f.parent_frame
  ∧ f'.loader_id = f.loader_id ∧ f'.url = f.url ∧ f'.name = f.name
  ∧ f'.lifecycle_events = f.lifecycle_events
  ∧ f'.child_frames ⊆ f.child_frames

/-- What a run of `remove_frames_recursively` does to the map: entries
only shrink, no key appears, a shrunk child set on a survivor means the
child was removed by this run, a removed frame's recorded children are
removed with it, and the map does not grow. -/
def RemovalOk (m r : FrameMap Frame) : Prop :=
  (∀ k f', lookupF r k = some f' → ∃ f, lookupF m k = some f ∧ ShrinkF f f')
  ∧ (∀ k, lookupF m k = none → lookupF r k = none)
  ∧ (∀ k f f' c, lookupF m k = some f → lookupF r k = some f' →
      c ∈ f.child_frames → c ∉ f'.child_frames →
      lookupF m c ≠ none ∧ lookupF r c = none)
  ∧ (∀ k f, lookupF m k = some f → lookupF r k = none →
      ∀ c ∈ f.child_frames, lookupF r c = none)
  ∧ r.length ≤ m.length

/-- The states reachable from the empty manager through the event
operations of `FrameManager`. -/
inductive ReachableFM : FrameManager → Prop where
  | base : ReachableFM FrameManager.default
  | attached (fm : FrameManager) (id : FrameId) (p : Option FrameId) :
      ReachableFM fm → ReachableFM (fm.on_frame_attached id p)
  | navigated (fm fm' : FrameManager) (cf : CdpFrame) :
      ReachableFM fm → fm.on_frame_navigated cf = some fm' → ReachableFM fm'
  | withinDoc (fm : FrameManager) (ev : EventNavigatedWithinDocument) :
      ReachableFM fm → ReachableFM (fm.on_frame_navigated_within_document ev)
  | stopped (fm : FrameManager) (ev : EventFrameStoppedLoading) :
      ReachableFM fm → ReachableFM (fm.on_frame_stopped_loading ev)
  | lifecycle (fm : FrameManager) (ev : EventLifecycleEvent) :
      ReachableFM fm → ReachableFM (fm.on_page_lifecycle_event ev)
  | detached (fm : FrameManager) (ev : EventFrameDetached) :
      ReachableFM fm → ReachableFM (fm.on_frame_detached ev)
  | frameTree (fm fm' : FrameManager) (t : FrameTree) :
      ReachableFM fm → onFrameTree fm t = some fm' → ReachableFM fm'

/-! # Theorems -/

/-! ## C6 — `CommandChain::poll` -/

/-- C6: for every `CommandChain` state and instant `now`, `poll now`
yields the timeout error when a step is in flight and `now` is strictly
past its deadline; `Pending` when a step is in flight otherwise
(including `now` equal to the deadline); pops the front of a nonempty
queue, records it in flight with deadline `now + step_timeout`, and
yields it; and yields `Ready(None)` on an empty queue with nothing in
flight. -/
theorem commandChain_poll_spec {P : Type} (c : CommandChain P) (now : Nat) :
    (∀ m dl, c.waiting = some (m, dl) → now > dl →
        c.poll now = (ChainPoll.readyErr ⟨now, dl⟩, c))
    ∧ (∀ m dl, c.waiting = some (m, dl) → now ≤ dl →
        c.poll now = (ChainPoll.pending, c))
    ∧ (∀ method params rest, c.waiting = none →
        c.cmds = (method, params) :: rest →
        c.poll now = (ChainPoll.readyStep method params,
          { c with cmds := rest, waiting := some (method, now + c.timeout) }))
    ∧ (c.waiting = none → c.cmds = [] →
        c.poll now = (ChainPoll.readyNone, c)) := by
  refine ⟨?_, ?_, ?_, ?_⟩
  · intro m dl hw hnow
    simp [CommandChain.poll, hw, hnow]
  · intro m dl hw hnow
    simp [CommandChain.poll, hw, Nat.not_lt.mpr hnow]
  · intro method params rest hw hc
    simp [CommandChain.poll, hw, hc]
  · intro hw hc
    simp [CommandChain.poll, hw, hc]

/-- C6 witness: polling a fresh one-step chain at instant 5 issues the
step and records it in flight with deadline `5 + REQUEST_TIMEOUT`. -/
theorem commandChain_poll_spec_witness :
    (CommandChain.new (P := Nat) [("Page.enable", 0)]).poll 5 =
      (ChainPoll.readyStep "Page.enable" 0,
       { cmds := [], waiting := some ("Page.enable", 5 + REQUEST_TIMEOUT),
         timeout := REQUEST_TIMEOUT }) :=
  (commandChain_poll_spec (CommandChain.new [("Page.enable", 0)]) 5).2.2.1
    "Page.enable" 0 [] rfl rfl

/-! ## C9 — `tab::execute` response dispatch -/

/-- C9 counterexample: a response that carries a `result` value which
does not decode into the command's response type makes `execute` fail
with a deserialization error — none of the three outcomes the claim
allows (`Ok(decoded)`, protocol error, `EmptyResponse`) occurs. -/
theorem execute_dispatch_deser_counterexample :
    execute_dispatch (fun _ : Unit => (none : Option Nat))
        ⟨1, some (), none⟩ = ExecuteOutcome.deserializationError
    ∧ (WireResponse.result (J := Unit) ⟨1, some (), none⟩).isSome = true := by
  exact ⟨rfl, rfl⟩

/-- C9 amended: for every response delivered to an `execute` call,
exactly one of four outcomes occurs: a present `result` that decodes
yields `Ok` of the decoded value; a present `result` that fails to
decode yields a deserialization error; otherwise a present `error`
object is returned as that protocol error; otherwise the call fails with
`EmptyResponse`. -/
theorem execute_dispatch_spec {J R : Type} (decode : J → Option R)
    (resp : WireResponse J) :
    (∀ r, execute_dispatch decode resp = ExecuteOutcome.ok r ↔
        ∃ v, resp.result = some v ∧ decode v = some r)
    ∧ (execute_dispatch decode resp = ExecuteOutcome.deserializationError ↔
        ∃ v, resp.result = some v ∧ decode v = none)
    ∧ (∀ code message,
        execute_dispatch decode resp = ExecuteOutcome.protocolError code message ↔
        resp.result = none ∧ resp.error = some (code, message))
    ∧ (execute_dispatch decode resp = ExecuteOutcome.emptyResponse ↔
        resp.result = none ∧ resp.error = none) := by
  obtain ⟨id, result, error⟩ := resp
  refine ⟨?_, ?_, ?_, ?_⟩
  · intro r
    cases result with
    | none =>
        cases error with
        | none => simp [execute_dispatch]
        | some e => cases e; simp [execute_dispatch]
    | some v =>
        cases hd : decode v with
        | none => simp [execute_dispatch, hd]
        | some r' => simp [execute_dispatch, hd, eq_comm]
  · cases result with
    | none =>
        cases error with
        | none => simp [execute_dispatch]
        | some e => cases e; simp [execute_dispatch]
    | some v =>
        cases hd : decode v with
        | none => simp [execute_dispatch, hd]
        | some r' => simp [execute_dispatch, hd]
  · intro code message
    cases result with
    | none =>
        cases error with
        | none => simp [execute_dispatch]
        | some e => cases e; simp [execute_dispatch]
    | some v =>
        cases hd : decode v with
        | none => simp [execute_dispatch, hd]
        | some r' => simp [execute_dispatch, hd]
  · cases result with
    | none =>
        cases error with
        | none => simp [execute_dispatch]
        | some e => cases e; simp [execute_dispatch]
    | some v =>
        cases hd : decode v with
        | none => simp [execute_dispatch, hd]
        | some r' => simp [execute_dispatch, hd]

/-! ## Map helper lemmas -/

theorem lookupF_updateF (m : FrameMap F) (k : FrameId) (g : F → F) :
    lookupF (updateF m k g) k = (lookupF m k).map g := by
  induction m with
  | nil => rfl
  | cons e rest ih =>
      obtain ⟨k', f⟩ := e
      by_cases h : k' = k
      · subst h; simp [updateF, lookupF]
      · simp [updateF, lookupF, h, ih]

theorem lookupF_updateF_ne (m : FrameMap F) (k k' : FrameId) (g : F → F)
    (h : k' ≠ k) : lookupF (updateF m k g) k' = lookupF m k' := by
  induction m with
  | nil => rfl
  | cons e rest ih =>
      obtain ⟨k₀, f⟩ := e
      by_cases h0 : k₀ = k
      · subst h0
        simp [updateF, lookupF, Ne.symm h]
      · by_cases h1 : k₀ = k'
        · subst h1; simp [updateF, lookupF, h0]
        · simp [updateF, lookupF, h0, h1, ih]

theorem removeRec_nil (fuel : Nat) (id : FrameId) :
    removeRec fuel [] id = [] := by
  cases fuel <;> simp [removeRec, lookupF]

theorem removeList_nil (fuel : Nat) (cs : List FrameId) :
    removeList fuel [] cs = [] := by
  induction cs with
  | nil => rfl
  | cons c cs ih =>
      simp only [removeList, List.foldl_cons, removeRec_nil]
      simpa [removeList] using ih

/-! ## C3 — lifecycle `"init"` event -/

/-- C3 counterexample: immediately after an `"init"` lifecycle event is
processed, the frame's lifecycle set is `{"init"}` (the event name is
inserted right after the clear), not the empty set the claim states. -/
theorem lifecycle_init_counterexample :
    (lookupF (FrameManager.on_page_lifecycle_event
        { main_frame := some "F",
          frames := [("F", { parent_frame := none, id := "F", loader_id := some "L0", url := some "u", child_frames := [], name := none, lifecycle_events := ["load"] })],
          timeout := REQUEST_TIMEOUT, pending_navigations := [],
          navigation := none }
        { frame_id := "F", loader_id := "L1", name := "init" }).frames
      "F").map Frame.lifecycle_events = some ["init"]
    ∧ some ["init"] ≠ some ([] : List String) := by
  exact ⟨rfl, by simp⟩

/-- C3 amended: for every frame `f` present in the manager, applying
`LifecycleEvent{frame_id: f.id, loader_id: L, name: "init"}` leaves `f`
with `loader_id = L` and with lifecycle set exactly `{"init"}` (the set
is cleared and the event name then inserted) immediately after. -/
theorem lifecycle_init_spec (fm : FrameManager) (ev : EventLifecycleEvent)
    (f : Frame) (hname : ev.name = "init")
    (hf : lookupF fm.frames ev.frame_id = some f) :
    lookupF (fm.on_page_lifecycle_event ev).frames ev.frame_id =
      some ({ f with loader_id := some ev.loader_id, lifecycle_events := ["init"] }) := by
  simp [FrameManager.on_page_lifecycle_event, lookupF_updateF, hf, hname,
    setInsert]

/-- C3 witness: the amended statement at a concrete one-frame manager. -/
theorem lifecycle_init_spec_witness :
    lookupF (FrameManager.on_page_lifecycle_event
        { main_frame := some "F",
          frames := [("F", { parent_frame := none, id := "F", loader_id := some "L0", url := some "u", child_frames := [], name := none, lifecycle_events := ["load"] })],
          timeout := REQUEST_TIMEOUT, pending_navigations := [],
          navigation := none }
        { frame_id := "F", loader_id := "L1", name := "init" }).frames
      "F" = some ({ parent_frame := none, id := "F", loader_id := some "L1", url := some "u", child_frames := [], name := none, lifecycle_events := ["init"] }) :=
  lifecycle_init_spec _ _ _ rfl (by rfl)

/-! ## C2 — top-level `FrameNavigated` with a child frame -/

/-- C2 counterexample: a top-level `FrameNavigated` for main frame `F`
(loader `L0`) carrying loader id `L1` leaves `F.loader_id = L0`:
`Frame::navigated` applies name and url only and never touches the
loader id (which is only replaced by the `"init"` lifecycle event). -/
theorem frame_navigated_loader_counterexample :
    ((FrameManager.on_frame_navigated
        { main_frame := some "F",
          frames := [("F", { parent_frame := none, id := "F", loader_id := some "L0", url := some "u", child_frames := ["C"], name := none, lifecycle_events := ["load"] }), ("C", { parent_frame := some "F", id := "C", loader_id := some "L0", url := some "uc", child_frames := [], name := none, lifecycle_events := ["load"] })],
          timeout := REQUEST_TIMEOUT, pending_navigations := [],
          navigation := none }
        { id := "F", parent_id := none, loader_id := "L1", url := "v", url_fragment := none, name := none }).bind
      (fun fm => lookupF fm.frames "F")).map Frame.loader_id =
        some (some "L0")
    ∧ some (some "L0") ≠ some (some ("L1" : LoaderId)) := by
  refine ⟨by rfl, by simp⟩

/-- C2 amended: for a `FrameManager` whose main frame `F` has one child
`C`, applying `FrameNavigated` for `F` with `parent_id` absent leaves
the frame map containing only `F`, with `F`'s child set empty and `F`'s
`loader_id` unchanged (name and effective url are applied; the loader id
is only replaced later by an `"init"` lifecycle event). -/
theorem frame_navigated_subtree_spec (F C : FrameId) (hFC : C ≠ F)
    (fF fC : Frame) (cf : CdpFrame) (hid : cf.id = F)
    (hparent : cf.parent_id = none) (fm : FrameManager)
    (hmain : fm.main_frame = some F)
    (hframes : fm.frames = [(F, fF), (C, fC)])
    (hchild : fF.child_frames = [C]) :
    fm.on_frame_navigated cf =
      some ({ fm with main_frame := some F, frames := [(F, Frame.navigated ({ fF with child_frames := [], id := F }) cf)] })
    ∧ (Frame.navigated ({ fF with child_frames := [], id := F }) cf).loader_id
        = fF.loader_id
    ∧ (Frame.navigated ({ fF with child_frames := [], id := F }) cf).child_frames
        = [] := by
  refine ⟨?_, rfl, rfl⟩
  have hlook : lookupF [(F, fF), (C, fC)] F = some fF := by
    simp [lookupF]
  have herase : eraseF [(F, fF), (C, fC)] F = [(C, fC)] := by
    simp [eraseF, List.filter, hFC]
  have hfold : ∀ fuel cs,
      List.foldl (fun acc c => removeRec fuel acc c) ([] : FrameMap Frame) cs
        = [] := by
    intro fuel cs
    simpa [removeList] using removeList_nil fuel cs
  have h1 : ∀ fuel, removeRec (fuel + 1) [(C, fC)] C = [] := by
    intro fuel
    have he : eraseF [(C, fC)] C = [] := by simp [eraseF, List.filter]
    simp only [removeRec, lookupF, if_pos rfl, he, hfold]
    cases hp : fC.parent_frame <;> simp [hp, updateF]
  have hrem : removeList ([(C, fC)].length + 1) [(C, fC)] fF.child_frames
      = [] := by
    rw [hchild]
    simp only [removeList, List.foldl_cons, h1, List.foldl_nil]
  simp only [FrameManager.on_frame_navigated, hparent, hmain, hframes, hid,
    Option.isSome_none, Bool.false_eq_true, if_false, hlook, herase, hrem]
  simp [insertF, eraseF, Frame.navigated]

/-- C2 witness: the amended statement at the concrete S6 manager. -/
theorem frame_navigated_subtree_spec_witness :
    FrameManager.on_frame_navigated
        { main_frame := some "F",
          frames := [("F", { parent_frame := none, id := "F", loader_id := some "L0", url := some "u", child_frames := ["C"], name := none, lifecycle_events := ["load"] }), ("C", { parent_frame := some "F", id := "C", loader_id := some "L0", url := some "uc", child_frames := [], name := none, lifecycle_events := ["load"] })],
          timeout := REQUEST_TIMEOUT, pending_navigations := [],
          navigation := none }
        { id := "F", parent_id := none, loader_id := "L1", url := "v", url_fragment := none, name := none } =
      some ({ main_frame := some "F",
              frames := [("F", { parent_frame := none, id := "F", loader_id := some "L0", url := some "v", child_frames := [], name := none, lifecycle_events := ["load"] })],
              timeout := REQUEST_TIMEOUT, pending_navigations := [],
              navigation := none }) :=
  (frame_navigated_subtree_spec "F" "C" (by decide)
    { parent_frame := none, id := "F", loader_id := some "L0", url := some "u", child_frames := ["C"], name := none, lifecycle_events := ["load"] }
    { parent_frame := some "F", id := "C", loader_id := some "L0", url := some "uc", child_frames := [], name := none, lifecycle_events := ["load"] }
    { id := "F", parent_id := none, loader_id := "L1", url := "v", url_fragment := none, name := none }
    rfl rfl
    { main_frame := some "F",
      frames := [("F", { parent_frame := none, id := "F", loader_id := some "L0", url := some "u", child_frames := ["C"], name := none, lifecycle_events := ["load"] }), ("C", { parent_frame := some "F", id := "C", loader_id := some "L0", url := some "uc", child_frames := [], name := none, lifecycle_events := ["load"] })],
      timeout := REQUEST_TIMEOUT, pending_navigations := [],
      navigation := none }
    rfl rfl rfl).1

/-! ## C1 — `NavigatedWithinDocument` never reaches the watcher -/

/-- C1 evaluation at the S4 scenario: after `goto` (nav id 2) is issued
and activated, feeding `NavigatedWithinDocument{F, "u#x"}` updates the
frame's URL and leaves its loader id unchanged, but the active watcher's
`same_document_navigation` flag is still `false`
(`FrameManager::on_frame_navigated_within_document` never notifies the
watcher; `NavigationWatcher::on_frame_navigated_within_document` has no
caller), so the next poll before the deadline emits nothing instead of
`NavigationResult(Ok(SameDocumentNavigation(2)))`. -/
theorem navigated_within_document_code_bug :
    (let fm3 := FrameManager.on_frame_navigated_within_document
        ((FrameManager.goto
            { main_frame := some "F",
              frames := [("F", { parent_frame := none, id := "F", loader_id := some "L0", url := some "u", child_frames := [], name := none, lifecycle_events := ["load"] })],
              timeout := REQUEST_TIMEOUT, pending_navigations := [],
              navigation := none }
            { id := 2, req := { method := "Page.navigate", session_id := none, params := [] }, timeout := REQUEST_TIMEOUT }).poll 0).2
        { frame_id := "F", url := "u#x" }
     ((lookupF fm3.frames "F").map (fun f => (f.url, f.loader_id))
        = some (some "u#x", some "L0"))
     ∧ fm3.navigation.map (fun x => x.1.same_document_navigation) = some false
     ∧ (fm3.poll 10).1 = none) :=
  ⟨rfl, rfl, rfl⟩

/-! ## C4 — detach of the root, then `FrameTree` replay -/

/-- C4 evaluation at the failing input: applying a one-node `FrameTree`
(root `R`) to the empty manager succeeds, but after `FrameDetached(R)`
(which removes `R` from the map yet leaves `main_frame = Some(R)`),
re-applying the same tree aborts: the top-level `FrameNavigated` branch
hits `self.frames.remove(&main).expect("Main frame is tracked.")` with
`R` absent from the map (`none` models the panic), instead of restoring
the original frame map. -/
theorem frame_tree_replay_code_bug :
    (onFrameTree FrameManager.default
        (FrameTree.mk { id := "R", parent_id := none, loader_id := "L", url := "u", url_fragment := none, name := none } [])).map
      (fun fm1 => onFrameTree (fm1.on_frame_detached ⟨"R"⟩)
        (FrameTree.mk { id := "R", parent_id := none, loader_id := "L", url := "u", url_fragment := none, name := none } []))
      = some none := by
  simp only [onFrameTree, onFrameTrees, FrameManager.on_frame_attached,
    FrameManager.on_frame_navigated, FrameManager.on_frame_detached,
    FrameManager.remove_frames_recursively, FrameManager.default,
    removeRec, removeList, lookupF, eraseF, insertF, updateF,
    Frame.navigated, Frame.new, List.filter]
  rfl

/-! ## C5 — the navigation-completion check -/

/-- C5: `check_lifecycle` holds iff every expected lifecycle name is on
the frame and, recursively, on every child that is present in the map
(absent descendants count as satisfied); and `check_lifecycle_complete`
returns `some` exactly when that coverage holds and either the watcher
saw a same-document navigation (result `SameDocumentNavigation(w.id)`,
checked first) or the frame's loader differs from the watcher's snapshot
(result `NewDocumentNavigation(w.id)`); with coverage but an unchanged
loader and no same-document flag it stays pending (`none`). -/
theorem check_lifecycle_complete_spec (fuel : Nat) (frames : FrameMap Frame)
    (w : NavigationWatcher) (f : Frame) :
    (FrameManager.check_lifecycle (fuel + 1) frames w f = true ↔
      ((∀ ev ∈ w.expected_lifecycle, ev ∈ f.lifecycle_events)
       ∧ (∀ c ∈ f.child_frames, ∀ g, lookupF frames c = some g →
            FrameManager.check_lifecycle fuel frames w g = true)))
    ∧ (∀ r, FrameManager.check_lifecycle_complete fuel frames w f = some r ↔
        (FrameManager.check_lifecycle fuel frames w f = true
         ∧ ((w.same_document_navigation = true
              ∧ r = NavigationOk.sameDocumentNavigation w.id)
            ∨ (w.same_document_navigation = false
               ∧ f.loader_id ≠ w.loader_id
               ∧ r = NavigationOk.newDocumentNavigation w.id))))
    ∧ (FrameManager.check_lifecycle_complete fuel frames w f = none ↔
        (FrameManager.check_lifecycle fuel frames w f = false
         ∨ (w.same_document_navigation = false
            ∧ f.loader_id = w.loader_id))) := by
  refine ⟨?_, ?_, ?_⟩
  · simp only [FrameManager.check_lifecycle, Bool.and_eq_true,
      List.all_eq_true, List.mem_filterMap]
    constructor
    · rintro ⟨h1, h2⟩
      refine ⟨fun ev hev => ?_, fun c hc g hg => ?_⟩
      · have := h1 ev hev
        simpa using this
      · exact h2 g ⟨c, hc, hg⟩
    · rintro ⟨h1, h2⟩
      refine ⟨fun ev hev => ?_, ?_⟩
      · simpa using h1 ev hev
      · rintro g ⟨c, hc, hg⟩
        exact h2 c hc g hg
  · intro r
    by_cases hc : FrameManager.check_lifecycle fuel frames w f = true
    · by_cases hsd : w.same_document_navigation
      · simp [FrameManager.check_lifecycle_complete, hc, hsd, eq_comm]
      · by_cases hld : f.loader_id = w.loader_id
        · simp [FrameManager.check_lifecycle_complete, hc, hsd, hld]
        · simp [FrameManager.check_lifecycle_complete, hc, hsd, hld, eq_comm]
    · simp [FrameManager.check_lifecycle_complete, hc]
  · by_cases hc : FrameManager.check_lifecycle fuel frames w f = true
    · by_cases hsd : w.same_document_navigation
      · simp [FrameManager.check_lifecycle_complete, hc, hsd]
      · by_cases hld : f.loader_id = w.loader_id
        · simp [FrameManager.check_lifecycle_complete, hc, hsd, hld]
        · simp [FrameManager.check_lifecycle_complete, hc, hsd, hld]
    · have hc' : FrameManager.check_lifecycle fuel frames w f = false := by
        simpa [Bool.not_eq_true] using hc
      simp [FrameManager.check_lifecycle_complete, hc, hc']

/-! ## C7 — (non-)monotonicity of the completion predicate -/

theorem frame_grows_refl (f : Frame) : Frame.Grows f f :=
  ⟨rfl, rfl, rfl, rfl, fun _ h => h⟩

theorem mem_setInsert_of_mem {α : Type} [DecidableEq α] (s : List α)
    (a x : α) (h : x ∈ s) : x ∈ setInsert s a := by
  unfold setInsert
  split
  · exact h
  · exact List.mem_cons_of_mem _ h

theorem mapGrows_updateF (m : FrameMap Frame) (k : FrameId)
    (g : Frame → Frame) (hg : ∀ f : Frame, Frame.Grows f (g f)) :
    MapGrows m (updateF m k g) := by
  constructor
  · intro k' f hf
    by_cases hk : k' = k
    · subst hk
      refine ⟨g f, ?_, hg f⟩
      rw [lookupF_updateF, hf]
      rfl
    · exact ⟨f, by rw [lookupF_updateF_ne m k k' g hk]; exact hf,
        frame_grows_refl f⟩
  · intro k' hf
    by_cases hk : k' = k
    · subst hk
      rw [lookupF_updateF, hf]
      rfl
    · rw [lookupF_updateF_ne m k k' g hk]
      exact hf

theorem check_lifecycle_grows (fuel : Nat) (m m' : FrameMap Frame)
    (hm : MapGrows m m') (w : NavigationWatcher) :
    ∀ f f', f.Grows f' →
      FrameManager.check_lifecycle fuel m w f = true →
      FrameManager.check_lifecycle fuel m' w f' = true := by
  induction fuel with
  | zero => intro f f' _ _; rfl
  | succ fuel ih =>
      intro f f' hf hc
      simp only [FrameManager.check_lifecycle, Bool.and_eq_true,
        List.all_eq_true, List.mem_filterMap] at hc ⊢
      obtain ⟨h1, h2⟩ := hc
      constructor
      · intro ev hev
        exact List.elem_iff.mpr (hf.2.2.2.2 ev (List.elem_iff.mp (h1 ev hev)))
      · rintro gg ⟨c, hc', hg'⟩
        rw [hf.2.2.2.1] at hc'
        cases hg : lookupF m c with
        | none =>
            have := hm.2 c hg
            rw [this] at hg'
            cases hg'
        | some g =>
            obtain ⟨g2, hg2, hgrow⟩ := hm.1 c g hg
            rw [hg2] at hg'
            cases hg'
            exact ih g gg hgrow (h2 g ⟨c, hc', hg⟩)

theorem check_lifecycle_complete_grows (fuel : Nat) (m m' : FrameMap Frame)
    (hm : MapGrows m m') (w : NavigationWatcher) (f f' : Frame)
    (hf : f.Grows f') (r : NavigationOk)
    (h : FrameManager.check_lifecycle_complete fuel m w f = some r) :
    FrameManager.check_lifecycle_complete fuel m' w f' = some r := by
  by_cases hc : FrameManager.check_lifecycle fuel m w f = true
  · have hc' := check_lifecycle_grows fuel m m' hm w f f' hf hc
    have hld : f'.loader_id = f.loader_id := hf.2.2.1
    by_cases hsd : w.same_document_navigation
    · simp only [FrameManager.check_lifecycle_complete, hc, hsd, hc',
        hld] at h ⊢
      simpa using h
    · by_cases hl : f.loader_id = w.loader_id
      · simp [FrameManager.check_lifecycle_complete, hc, hsd, hl] at h
      · simp only [FrameManager.check_lifecycle_complete, hc, hsd, hc',
          hld] at h ⊢
        simpa [hl] using h
  · simp [FrameManager.check_lifecycle_complete, hc] at h

/-- C7 counterexample: the completion check is not monotonic.  In a
manager whose main frame `F` carries loader `L1` and lifecycle
`{"load"}`, a watcher (id 7, snapshot loader `L0`) is complete with
`NewDocumentNavigation(7)`; applying the single event
`LifecycleEvent{F, L2, "init"}` (before any poll retires the watcher)
clears `F`'s lifecycle set, and the same check returns `none` again. -/
theorem check_complete_not_monotonic_counterexample :
    FrameManager.check_lifecycle_complete 2
        [("F", { parent_frame := none, id := "F", loader_id := some "L1", url := some "u", child_frames := [], name := none, lifecycle_events := ["load"] })]
        { id := 7, expected_lifecycle := ["load"], frame_id := "F", loader_id := some "L0", same_document_navigation := false }
        { parent_frame := none, id := "F", loader_id := some "L1", url := some "u", child_frames := [], name := none, lifecycle_events := ["load"] }
      = some (NavigationOk.newDocumentNavigation 7)
    ∧ ((lookupF (FrameManager.on_page_lifecycle_event
          { main_frame := some "F",
            frames := [("F", { parent_frame := none, id := "F", loader_id := some "L1", url := some "u", child_frames := [], name := none, lifecycle_events := ["load"] })],
            timeout := REQUEST_TIMEOUT, pending_navigations := [],
            navigation := some ({ id := 7, expected_lifecycle := ["load"], frame_id := "F", loader_id := some "L0", same_document_navigation := false }, 20000) }
          { frame_id := "F", loader_id := "L2", name := "init" }).frames "F").map
        (fun f => FrameManager.check_lifecycle_complete 2
          (FrameManager.on_page_lifecycle_event
            { main_frame := some "F",
              frames := [("F", { parent_frame := none, id := "F", loader_id := some "L1", url := some "u", child_frames := [], name := none, lifecycle_events := ["load"] })],
              timeout := REQUEST_TIMEOUT, pending_navigations := [],
              navigation := some ({ id := 7, expected_lifecycle := ["load"], frame_id := "F", loader_id := some "L0", same_document_navigation := false }, 20000) }
            { frame_id := "F", loader_id := "L2", name := "init" }).frames
          { id := 7, expected_lifecycle := ["load"], frame_id := "F", loader_id := some "L0", same_document_navigation := false }
          f)) = some none :=
  ⟨rfl, rfl⟩

/-- C7 amended: the completion predicate is not monotonic over arbitrary
event applications (an `"init"` lifecycle event clears the watched
frame's lifecycle set, and a fresh `FrameAttached` child adds an unmet
expectation), but it is preserved by exactly the events that leave the
frame structure and loaders intact: lifecycle events with a name other
than `"init"`, `NavigatedWithinDocument`, and `FrameStoppedLoading`. -/
theorem check_complete_preserved_spec (fuel : Nat) (fm : FrameManager)
    (w : NavigationWatcher) (f : Frame) (r : NavigationOk)
    (hf : lookupF fm.frames w.frame_id = some f)
    (hc : FrameManager.check_lifecycle_complete fuel fm.frames w f = some r) :
    (∀ ev : EventLifecycleEvent, ev.name ≠ "init" →
      ∃ f', lookupF (fm.on_page_lifecycle_event ev).frames w.frame_id = some f'
        ∧ FrameManager.check_lifecycle_complete fuel
            (fm.on_page_lifecycle_event ev).frames w f' = some r)
    ∧ (∀ ev : EventNavigatedWithinDocument,
      ∃ f', lookupF (fm.on_frame_navigated_within_document ev).frames w.frame_id = some f'
        ∧ FrameManager.check_lifecycle_complete fuel
            (fm.on_frame_navigated_within_document ev).frames w f' = some r)
    ∧ (∀ ev : EventFrameStoppedLoading,
      ∃ f', lookupF (fm.on_frame_stopped_loading ev).frames w.frame_id = some f'
        ∧ FrameManager.check_lifecycle_complete fuel
            (fm.on_frame_stopped_loading ev).frames w f' = some r) := by
  have main : ∀ (m' : FrameMap Frame), MapGrows fm.frames m' →
      ∃ f', lookupF m' w.frame_id = some f'
        ∧ FrameManager.check_lifecycle_complete fuel m' w f' = some r := by
    intro m' hm
    obtain ⟨f', hf', hgrow⟩ := hm.1 w.frame_id f hf
    exact ⟨f', hf',
      check_lifecycle_complete_grows fuel fm.frames m' hm w f f' hgrow r hc⟩
  refine ⟨?_, ?_, ?_⟩
  · intro ev hne
    refine main _ (mapGrows_updateF _ _ _ ?_)
    intro g
    rw [if_neg hne]
    exact ⟨rfl, rfl, rfl, rfl,
      fun x hx => mem_setInsert_of_mem _ _ _ hx⟩
  · intro ev
    refine main _ (mapGrows_updateF _ _ _ ?_)
    intro g
    exact ⟨rfl, rfl, rfl, rfl, fun x hx => hx⟩
  · intro ev
    refine main _ (mapGrows_updateF _ _ _ ?_)
    intro g
    refine ⟨rfl, rfl, rfl, rfl, fun x hx => ?_⟩
    dsimp only [Frame.on_loading_stopped]
    exact mem_setInsert_of_mem _ _ _ (mem_setInsert_of_mem _ _ _ hx)

/-- C7 witness: the preservation statement at a concrete manager, for a
`"networkIdle"` lifecycle event. -/
theorem check_complete_preserved_spec_witness :
    ∃ f', lookupF (FrameManager.on_page_lifecycle_event
        { main_frame := some "F",
          frames := [("F", { parent_frame := none, id := "F", loader_id := some "L1", url := some "u", child_frames := [], name := none, lifecycle_events := ["load"] })],
          timeout := REQUEST_TIMEOUT, pending_navigations := [],
          navigation := none }
        { frame_id := "F", loader_id := "L1", name := "networkIdle" }).frames
        "F" = some f'
      ∧ FrameManager.check_lifecycle_complete 2
          (FrameManager.on_page_lifecycle_event
            { main_frame := some "F",
              frames := [("F", { parent_frame := none, id := "F", loader_id := some "L1", url := some "u", child_frames := [], name := none, lifecycle_events := ["load"] })],
              timeout := REQUEST_TIMEOUT, pending_navigations := [],
              navigation := none }
            { frame_id := "F", loader_id := "L1", name := "networkIdle" }).frames
          { id := 7, expected_lifecycle := ["load"], frame_id := "F", loader_id := some "L0", same_document_navigation := false }
          f' = some (NavigationOk.newDocumentNavigation 7) :=
  (check_complete_preserved_spec 2
      { main_frame := some "F",
        frames := [("F", { parent_frame := none, id := "F", loader_id := some "L1", url := some "u", child_frames := [], name := none, lifecycle_events := ["load"] })],
        timeout := REQUEST_TIMEOUT, pending_navigations := [],
        navigation := none }
      { id := 7, expected_lifecycle := ["load"], frame_id := "F", loader_id := some "L0", same_document_navigation := false }
      { parent_frame := none, id := "F", loader_id := some "L1", url := some "u", child_frames := [], name := none, lifecycle_events := ["load"] }
      (NavigationOk.newDocumentNavigation 7) (by rfl) (by rfl)).1
    { frame_id := "F", loader_id := "L1", name := "networkIdle" } (by decide)

/-! ## C10 — `goto` with no main frame -/

theorem set_frame_id_id (req : FrameNavigationRequest) (fid : FrameId) :
    (req.set_frame_id fid).id = req.id := by
  unfold FrameNavigationRequest.set_frame_id
  split <;> rfl

theorem navIds_eq_of_fields {fm fm' : FrameManager}
    (h1 : fm'.pending_navigations = fm.pending_navigations)
    (h2 : fm'.navigation = fm.navigation) : navIds fm' = navIds fm := by
  unfold navIds
  rw [h1, h2]

theorem on_frame_attached_nav_fields (fm : FrameManager) (id : FrameId)
    (p : Option FrameId) :
    (fm.on_frame_attached id p).pending_navigations = fm.pending_navigations
    ∧ (fm.on_frame_attached id p).navigation = fm.navigation := by
  unfold FrameManager.on_frame_attached
  split
  · exact ⟨rfl, rfl⟩
  · split
    · exact ⟨rfl, rfl⟩
    · split
      · exact ⟨rfl, rfl⟩
      · exact ⟨rfl, rfl⟩

theorem on_frame_navigated_nav_fields (fm : FrameManager) (cf : CdpFrame)
    (fm' : FrameManager) (h : fm.on_frame_navigated cf = some fm') :
    fm'.pending_navigations = fm.pending_navigations
    ∧ fm'.navigation = fm.navigation := by
  unfold FrameManager.on_frame_navigated at h
  split at h
  · split at h
    · cases h; exact ⟨rfl, rfl⟩
    · cases h; exact ⟨rfl, rfl⟩
  · split at h
    · split at h
      · cases h
      · cases h; exact ⟨rfl, rfl⟩
    · cases h; exact ⟨rfl, rfl⟩

mutual

theorem onFrameTree_nav_fields : ∀ (fm : FrameManager) (t : FrameTree)
    (fm' : FrameManager), onFrameTree fm t = some fm' →
    fm'.pending_navigations = fm.pending_navigations
    ∧ fm'.navigation = fm.navigation
  | fm, FrameTree.mk cf children, fm', h => by
      rw [onFrameTree] at h
      cases hnav : (fm.on_frame_attached cf.id cf.parent_id).on_frame_navigated
          cf with
      | none =>
          simp only [hnav] at h
          exact Option.noConfusion h
      | some fm2 =>
          simp only [hnav] at h
          have h1 := on_frame_attached_nav_fields fm cf.id cf.parent_id
          have h2 := on_frame_navigated_nav_fields _ cf fm2 hnav
          have h3 := onFrameTrees_nav_fields fm2 children fm' h
          exact ⟨h3.1.trans (h2.1.trans h1.1), h3.2.trans (h2.2.trans h1.2)⟩

theorem onFrameTrees_nav_fields : ∀ (fm : FrameManager) (ts : List FrameTree)
    (fm' : FrameManager), onFrameTrees fm ts = some fm' →
    fm'.pending_navigations = fm.pending_navigations
    ∧ fm'.navigation = fm.navigation
  | fm, [], fm', h => by
      rw [onFrameTrees] at h
      cases h
      exact ⟨rfl, rfl⟩
  | fm, t :: ts, fm', h => by
      rw [onFrameTrees] at h
      cases ht : onFrameTree fm t with
      | none =>
          simp only [ht] at h
          exact Option.noConfusion h
      | some fm2 =>
          simp only [ht] at h
          have ha := onFrameTree_nav_fields fm t fm2 ht
          have hb := onFrameTrees_nav_fields fm2 ts fm' h
          exact ⟨hb.1.trans ha.1, hb.2.trans ha.2⟩

end

theorem check_lifecycle_complete_navigation_id (fuel : Nat)
    (m : FrameMap Frame) (w : NavigationWatcher) (f : Frame)
    (r : NavigationOk)
    (h : FrameManager.check_lifecycle_complete fuel m w f = some r) :
    r.navigation_id = w.id := by
  unfold FrameManager.check_lifecycle_complete at h
  split at h
  · cases h
  · split at h
    · cases h
    · split at h
      · cases h; rfl
      · split at h
        · cases h; rfl
        · cases h

theorem applyStep_navIds (n : NavigationId) (s : Step) (fm fm' : FrameManager)
    (evOpt : Option FrameEvent) (h : applyStep fm s = some (fm', evOpt))
    (hs : ¬ s.usesNavId n) (hn : n ∉ navIds fm) :
    n ∉ navIds fm' ∧ ∀ e ∈ evOpt.toList, FrameEvent.navId e ≠ n := by
  cases s with
  | attached id p =>
      simp only [applyStep, Option.some.injEq, Prod.mk.injEq] at h
      obtain ⟨h1, h2⟩ := h
      subst h1; subst h2
      refine ⟨?_, by simp⟩
      rw [navIds_eq_of_fields (on_frame_attached_nav_fields fm id p).1
        (on_frame_attached_nav_fields fm id p).2]
      exact hn
  | navigated cf =>
      simp only [applyStep] at h
      cases hr : fm.on_frame_navigated cf with
      | none => rw [hr] at h; cases h
      | some fm2 =>
          rw [hr] at h
          simp only [Option.map_some', Option.some.injEq, Prod.mk.injEq] at h
          obtain ⟨h1, h2⟩ := h
          subst h1; subst h2
          refine ⟨?_, by simp⟩
          rw [navIds_eq_of_fields (on_frame_navigated_nav_fields fm cf fm2 hr).1
            (on_frame_navigated_nav_fields fm cf fm2 hr).2]
          exact hn
  | navigatedWithinDocument ev =>
      simp only [applyStep, Option.some.injEq, Prod.mk.injEq] at h
      obtain ⟨h1, h2⟩ := h
      subst h1; subst h2
      exact ⟨by rw [navIds_eq_of_fields rfl rfl]; exact hn, by simp⟩
  | stoppedLoading ev =>
      simp only [applyStep, Option.some.injEq, Prod.mk.injEq] at h
      obtain ⟨h1, h2⟩ := h
      subst h1; subst h2
      exact ⟨by rw [navIds_eq_of_fields rfl rfl]; exact hn, by simp⟩
  | lifecycle ev =>
      simp only [applyStep, Option.some.injEq, Prod.mk.injEq] at h
      obtain ⟨h1, h2⟩ := h
      subst h1; subst h2
      exact ⟨by rw [navIds_eq_of_fields rfl rfl]; exact hn, by simp⟩
  | detached ev =>
      simp only [applyStep, Option.some.injEq, Prod.mk.injEq] at h
      obtain ⟨h1, h2⟩ := h
      subst h1; subst h2
      exact ⟨by rw [navIds_eq_of_fields rfl rfl]; exact hn, by simp⟩
  | frameTree t =>
      simp only [applyStep] at h
      cases hr : onFrameTree fm t with
      | none => rw [hr] at h; cases h
      | some fm2 =>
          rw [hr] at h
          simp only [Option.map_some', Option.some.injEq, Prod.mk.injEq] at h
          obtain ⟨h1, h2⟩ := h
          subst h1; subst h2
          refine ⟨?_, by simp⟩
          rw [navIds_eq_of_fields (onFrameTree_nav_fields fm t fm2 hr).1
            (onFrameTree_nav_fields fm t fm2 hr).2]
          exact hn
  | gotoReq req =>
      simp only [applyStep, Option.some.injEq, Prod.mk.injEq] at h
      obtain ⟨h1, h2⟩ := h
      subst h1; subst h2
      simp only [Step.usesNavId] at hs
      refine ⟨?_, by simp⟩
      unfold FrameManager.goto
      cases hm : fm.main_frame with
      | none => exact hn
      | some fid =>
          intro hc
          unfold navIds at hc hn
          simp only [FrameManager.navigate_frame, List.flatMap_append,
            List.mem_append, not_or, List.flatMap_cons, List.flatMap_nil,
            List.append_nil, List.mem_cons, List.not_mem_nil, or_false,
            set_frame_id_id, NavigationWatcher.until_page_load] at hc hn
          rcases hc with (hc | hc) | hc
          · exact hn.1 hc
          · rcases hc with hc | hc <;> exact hs hc.symm
          · exact hn.2 hc
  | navigateFrame fid req =>
      simp only [applyStep, Option.some.injEq, Prod.mk.injEq] at h
      obtain ⟨h1, h2⟩ := h
      subst h1; subst h2
      simp only [Step.usesNavId] at hs
      refine ⟨?_, by simp⟩
      intro hc
      unfold navIds at hc hn
      simp only [FrameManager.navigate_frame, List.flatMap_append,
        List.mem_append, not_or, List.flatMap_cons, List.flatMap_nil,
        List.append_nil, List.mem_cons, List.not_mem_nil, or_false,
        set_frame_id_id, NavigationWatcher.until_page_load] at hc hn
      rcases hc with (hc | hc) | hc
      · exact hn.1 hc
      · rcases hc with hc | hc <;> exact hs hc.symm
      · exact hn.2 hc
  | poll now =>
      simp only [applyStep, Option.some.injEq, Prod.mk.injEq] at h
      obtain ⟨h1, h2⟩ := h
      subst h1; subst h2
      unfold FrameManager.poll
      cases hnav : fm.navigation with
      | some wd =>
          obtain ⟨w, dl⟩ := wd
          have hwid : w.id ≠ n := by
            intro hw
            apply hn
            simp [navIds, hnav, hw]
          by_cases ht : now > dl
          · simp only [ht, if_true]
            refine ⟨?_, ?_⟩
            · intro hc
              apply hn
              simp only [navIds, hnav, List.mem_append] at hc ⊢
              rcases hc with hc | hc
              · exact Or.inl hc
              · simp at hc
            · intro e he
              simp only [Option.toList_some, List.mem_singleton] at he
              subst he
              simpa [FrameEvent.navId, NavigationError.navigation_id]
                using hwid
          · simp only [ht, if_false]
            cases hf : lookupF fm.frames w.frame_id with
            | some frame =>
                cases hcl : FrameManager.check_lifecycle_complete
                    (fm.frames.length + 1) fm.frames w frame with
                | some nav =>
                    simp only [hf, hcl]
                    refine ⟨?_, ?_⟩
                    · intro hc
                      apply hn
                      simp only [navIds, hnav, List.mem_append] at hc ⊢
                      rcases hc with hc | hc
                      · exact Or.inl hc
                      · simp at hc
                    · intro e he
                      simp only [Option.toList_some, List.mem_singleton] at he
                      subst he
                      have := check_lifecycle_complete_navigation_id _ _ _ _ _
                        hcl
                      simpa [FrameEvent.navId, this] using hwid
                | none =>
                    simp only [hf, hcl]
                    refine ⟨?_, by simp⟩
                    intro hc
                    apply hn
                    simp only [navIds, hnav, List.mem_append] at hc ⊢
                    exact hc
            | none =>
                simp only [hf]
                refine ⟨?_, ?_⟩
                · intro hc
                  apply hn
                  simp only [navIds, hnav, List.mem_append] at hc ⊢
                  rcases hc with hc | hc
                  · exact Or.inl hc
                  · simp at hc
                · intro e he
                  simp only [Option.toList_some, List.mem_singleton] at he
                  subst he
                  simpa [FrameEvent.navId, NavigationError.navigation_id]
                    using hwid
      | none =>
          cases hp : fm.pending_navigations with
          | nil =>
              simp only [hnav, hp]
              refine ⟨?_, by simp⟩
              intro hc
              apply hn
              simp only [navIds, hnav, hp] at hc ⊢
              exact hc
          | cons rw rest =>
              obtain ⟨req, w⟩ := rw
              simp only [hnav, hp]
              have hreq : req.id ≠ n ∧ w.id ≠ n := by
                constructor <;> intro hw <;> apply hn <;>
                  simp [navIds, hnav, hp, hw]
              refine ⟨?_, ?_⟩
              · intro hc
                apply hn
                simp only [navIds, hnav, hp, List.mem_append,
                  List.flatMap_cons, List.mem_cons] at hc ⊢
                rcases hc with hc | hc
                · exact Or.inl (Or.inr hc)
                · simp only [List.not_mem_nil, List.mem_singleton] at hc
                  left; left
                  simp [hc]
              · intro e he
                simp only [Option.toList_some, List.mem_singleton] at he
                subst he
                simpa [FrameEvent.navId] using hreq.1

theorem runTrace_no_navId (n : NavigationId) :
    ∀ (steps : List Step) (fm : FrameManager), n ∉ navIds fm →
      (∀ s ∈ steps, ¬ s.usesNavId n) →
      ∀ e ∈ (runTrace fm steps).2, FrameEvent.navId e ≠ n := by
  intro steps
  induction steps with
  | nil => intro fm _ _ e he; simp [runTrace] at he
  | cons s ss ih =>
      intro fm hn hsteps e he
      rw [runTrace] at he
      cases happ : applyStep fm s with
      | none => rw [happ] at he; simp at he
      | some res =>
          obtain ⟨fm2, evOpt⟩ := res
          rw [happ] at he
          simp only [List.mem_append] at he
          have hinv := applyStep_navIds n s fm fm2 evOpt happ
            (hsteps s (List.mem_cons_self s ss)) hn
          rcases he with he | he
          · exact hinv.2 e he
          · exact ih fm2 hinv.1
              (fun s' hs' => hsteps s' (List.mem_cons_of_mem s hs')) e he

/-- C10: when `main_frame` is `None`, `goto` silently drops the request:
the manager is unchanged (no watcher built, nothing enqueued), and — as
long as the request's id is not already recorded for some other
navigation and no later step re-submits it — no subsequent poll ever
emits a `NavigationRequest` or `NavigationResult` carrying that id. -/
theorem goto_without_main_frame_spec (fm : FrameManager)
    (req : FrameNavigationRequest) (hmain : fm.main_frame = none) :
    fm.goto req = fm
    ∧ (req.id ∉ navIds fm →
        ∀ steps : List Step, (∀ s ∈ steps, ¬ s.usesNavId req.id) →
          ∀ e ∈ (runTrace (fm.goto req) steps).2,
            FrameEvent.navId e ≠ req.id) := by
  have hg : fm.goto req = fm := by
    unfold FrameManager.goto
    rw [hmain]
  refine ⟨hg, fun hn steps hsteps => ?_⟩
  rw [hg]
  exact runTrace_no_navId req.id steps fm hn hsteps

/-- C10 witness: the statement at the empty manager, a fresh request id
and a single later poll. -/
theorem goto_without_main_frame_spec_witness :
    FrameManager.default.goto
        { id := 0, req := { method := "Page.navigate", session_id := none, params := [] }, timeout := REQUEST_TIMEOUT }
      = FrameManager.default
    ∧ ∀ e ∈ (runTrace (FrameManager.default.goto
          { id := 0, req := { method := "Page.navigate", session_id := none, params := [] }, timeout := REQUEST_TIMEOUT })
        [Step.poll 0]).2, FrameEvent.navId e ≠ 0 := by
  have h := goto_without_main_frame_spec FrameManager.default
    { id := 0, req := { method := "Page.navigate", session_id := none, params := [] }, timeout := REQUEST_TIMEOUT }
    rfl
  exact ⟨h.1, h.2 (by simp [navIds, FrameManager.default])
    [Step.poll 0] (by intro s hs; simp at hs; subst hs
                      simp [Step.usesNavId])⟩

/-! ## C8 — map lemmas -/

theorem lookupF_eraseF_self (m : FrameMap F) (k : FrameId) :
    lookupF (eraseF m k) k = none := by
  induction m with
  | nil => rfl
  | cons e rest ih =>
      obtain ⟨k0, f0⟩ := e
      by_cases h : k0 = k
      · subst h; simpa [eraseF, List.filter] using ih
      · simpa [eraseF, List.filter, h, lookupF] using ih

theorem lookupF_eraseF_ne (m : FrameMap F) (k k' : FrameId) (h : k' ≠ k) :
    lookupF (eraseF m k) k' = lookupF m k' := by
  induction m with
  | nil => rfl
  | cons e rest ih =>
      obtain ⟨k0, f0⟩ := e
      by_cases h0 : k0 = k
      · subst h0
        simpa [eraseF, List.filter, lookupF, Ne.symm h] using ih
      · by_cases h1 : k0 = k'
        · subst h1; simp [eraseF, List.filter, h0, lookupF]
        · simpa [eraseF, List.filter, h0, h1, lookupF] using ih

theorem lookupF_none_iff (m : FrameMap F) (k : FrameId) :
    lookupF m k = none ↔ ∀ e ∈ m, e.1 ≠ k := by
  induction m with
  | nil => simp [lookupF]
  | cons e rest ih =>
      obtain ⟨k0, f0⟩ := e
      by_cases h : k0 = k
      · subst h; simp [lookupF]
      · simp [lookupF, h, ih]

theorem eraseF_of_lookup_none (m : FrameMap F) (k : FrameId)
    (h : lookupF m k = none) : eraseF m k = m := by
  rw [lookupF_none_iff] at h
  unfold eraseF
  apply List.filter_eq_self.mpr
  intro e he
  simpa using h e he

theorem eraseF_length_le (m : FrameMap F) (k : FrameId) :
    (eraseF m k).length ≤ m.length :=
  List.length_filter_le _ _

theorem eraseF_length_lt (m : FrameMap F) (k : FrameId) (f : F)
    (h : lookupF m k = some f) : (eraseF m k).length < m.length := by
  induction m with
  | nil => cases h
  | cons e rest ih =>
      obtain ⟨k0, f0⟩ := e
      by_cases h0 : k0 = k
      · subst h0
        have h1 : eraseF ((k0, f0) :: rest) k0 = eraseF rest k0 := by
          simp [eraseF, List.filter_cons]
        rw [h1, List.length_cons]
        exact Nat.lt_succ_of_le (eraseF_length_le rest k0)
      · have h1 : eraseF ((k0, f0) :: rest) k = (k0, f0) :: eraseF rest k := by
          simp [eraseF, List.filter_cons, h0]
        have h2 := ih (by simpa [lookupF, h0] using h)
        rw [h1, List.length_cons, List.length_cons]
        omega

theorem updateF_length (m : FrameMap F) (k : FrameId) (g : F → F) :
    (updateF m k g).length = m.length := by
  induction m with
  | nil => rfl
  | cons e rest ih =>
      obtain ⟨k0, f0⟩ := e
      by_cases h : k0 = k <;> simp [updateF, h, ih]

theorem mem_setErase {α : Type} [DecidableEq α] (s : List α) (a x : α) :
    x ∈ setErase s a ↔ x ∈ s ∧ x ≠ a := by
  simp [setErase]

theorem shrinkF_refl (f : Frame) : ShrinkF f f :=
  ⟨rfl, rfl, rfl, rfl, rfl, rfl, fun _ h => h⟩

theorem shrinkF_trans {f g h : Frame} (h1 : ShrinkF f g) (h2 : ShrinkF g h) :
    ShrinkF f h :=
  ⟨h2.1.trans h1.1, h2.2.1.trans h1.2.1, h2.2.2.1.trans h1.2.2.1,
   h2.2.2.2.1.trans h1.2.2.2.1, h2.2.2.2.2.1.trans h1.2.2.2.2.1,
   h2.2.2.2.2.2.1.trans h1.2.2.2.2.2.1,
   fun _ hx => h1.2.2.2.2.2.2 (h2.2.2.2.2.2.2 hx)⟩

theorem removalOk_refl (m : FrameMap Frame) : RemovalOk m m := by
  refine ⟨fun k f' h => ⟨f', h, shrinkF_refl f'⟩, fun k h => h, ?_, ?_,
    le_refl _⟩
  · intro k f f' c hf hf' hc hc'
    rw [hf] at hf'
    cases hf'
    exact absurd hc hc'
  · intro k f hf hnone
    rw [hf] at hnone
    cases hnone

theorem removalOk_trans {m r r2 : FrameMap Frame} (h1 : RemovalOk m r)
    (h2 : RemovalOk r r2) : RemovalOk m r2 := by
  obtain ⟨a1, b1, c1, j1, e1⟩ := h1
  obtain ⟨a2, b2, c2, j2, e2⟩ := h2
  refine ⟨?_, ?_, ?_, ?_, e2.trans e1⟩
  · intro k f' hk
    obtain ⟨fr, hfr, s2⟩ := a2 k f' hk
    obtain ⟨fm, hfm, s1⟩ := a1 k fr hfr
    exact ⟨fm, hfm, shrinkF_trans s1 s2⟩
  · intro k hk
    exact b2 k (b1 k hk)
  · intro k f f'' c hf hf'' hc hc''
    obtain ⟨fr, hfr, s2⟩ := a2 k f'' hf''
    obtain ⟨fm, hfm, s1⟩ := a1 k fr hfr
    rw [hf] at hfm
    cases hfm
    by_cases hcr : c ∈ fr.child_frames
    · have := c2 k fr f'' c hfr hf'' hcr hc''
      refine ⟨?_, this.2⟩
      intro hmc
      exact this.1 (b1 c hmc)
    · have := c1 k f fr c hf hfr hc hcr
      exact ⟨this.1, b2 c this.2⟩
  · intro k f hf hk2 c hc
    cases hkr : lookupF r k with
    | none =>
        exact b2 c (j1 k f hf hkr c hc)
    | some fr =>
        obtain ⟨fm, hfm, s1⟩ := a1 k fr hkr
        rw [hf] at hfm
        cases hfm
        by_cases hcr : c ∈ fr.child_frames
        · exact j2 k fr hkr hk2 c hcr
        · exact b2 c (c1 k f fr c hf hkr hc hcr).2

theorem keyMatch_of_removalOk {m r : FrameMap Frame} (hk : KeyMatchM m)
    (h : RemovalOk m r) : KeyMatchM r := by
  intro k f' hf'
  obtain ⟨f, hf, s⟩ := h.1 k f' hf'
  rw [s.1]
  exact hk k f hf

theorem rankOk_of_removalOk {m r : FrameMap Frame} (rank : FrameId → Nat)
    (hr : RankOk m rank) (h : RemovalOk m r) : RankOk r rank := by
  intro k f' p hf' hp
  obtain ⟨f, hf, s⟩ := h.1 k f' hf'
  exact hr k f p hf (s.2.1 ▸ hp)

theorem removeRec_of_lookup_none (fuel : Nat) (m : FrameMap Frame)
    (id : FrameId) (h : lookupF m id = none) : removeRec fuel m id = m := by
  cases fuel <;> simp [removeRec, h]

theorem lookupF_updateF_eq_none (m : FrameMap F) (k k' : FrameId)
    (g : F → F) :
    lookupF (updateF m k g) k' = none ↔ lookupF m k' = none := by
  by_cases h : k' = k
  · subst h
    rw [lookupF_updateF]
    cases lookupF m k' <;> simp
  · rw [lookupF_updateF_ne m k k' g h]

/-- The heart of the C8 removal analysis: what one pass of the
child-removal loop (`removeList`) does, assuming the per-frame removal
behaves as stated at the same fuel (the fuel induction hypothesis). -/
theorem removeList_ok (fl : Nat)
    (IH : ∀ (m : FrameMap Frame) (id : FrameId) (B : FrameId → Prop),
      m.length ≤ fl → (∀ c, B c → lookupF m c = none) → KeyMatchM m →
      ChildOkB B m →
      RemovalOk m (removeRec fl m id) ∧ ChildOkB B (removeRec fl m id)
      ∧ lookupF (removeRec fl m id) id = none
      ∧ (∀ rank : FrameId → Nat, RankOk m rank →
          ∀ k fk, lookupF m k = some fk → rank k < rank id →
            lookupF (removeRec fl m id) k ≠ none)) :
    ∀ (cs : List FrameId) (m : FrameMap Frame) (B : FrameId → Prop),
      m.length ≤ fl → (∀ c, B c → lookupF m c = none) → KeyMatchM m →
      ChildOkB B m →
      RemovalOk m (removeList fl m cs) ∧ ChildOkB B (removeList fl m cs)
      ∧ (∀ c ∈ cs, lookupF (removeList fl m cs) c = none)
      ∧ (∀ rank : FrameId → Nat, RankOk m rank → ∀ ρ : Nat,
          (∀ c ∈ cs, ∀ g, lookupF m c = some g → ρ < rank c) →
          ∀ k fk, lookupF m k = some fk → rank k ≤ ρ →
            lookupF (removeList fl m cs) k ≠ none) := by
  intro cs
  induction cs with
  | nil =>
      intro m B hlen hB hkm hco
      refine ⟨removalOk_refl m, hco, by simp, ?_⟩
      intro rank _ ρ _ k fk hk _
      simp [removeList, hk]
  | cons c cs' ih =>
      intro m B hlen hB hkm hco
      have hstep : removeList fl m (c :: cs') =
          removeList fl (removeRec fl m c) cs' := by
        simp [removeList, List.foldl_cons]
      obtain ⟨ok1, co1, kill1, surv1⟩ := IH m c B hlen hB hkm hco
      have hlen1 : (removeRec fl m c).length ≤ fl :=
        le_trans ok1.2.2.2.2 hlen
      have hB1 : ∀ x, B x → lookupF (removeRec fl m c) x = none :=
        fun x hx => ok1.2.1 x (hB x hx)
      have hkm1 : KeyMatchM (removeRec fl m c) := keyMatch_of_removalOk hkm ok1
      obtain ⟨ok2, co2, kill2, surv2⟩ := ih (removeRec fl m c) B hlen1 hB1
        hkm1 co1
      rw [hstep]
      refine ⟨removalOk_trans ok1 ok2, co2, ?_, ?_⟩
      · intro x hx
        rcases List.mem_cons.mp hx with rfl | hx'
        · exact ok2.2.1 x kill1
        · exact kill2 x hx'
      · intro rank hr ρ hcs k fk hk hkρ
        by_cases hc : lookupF m c = none
        · have hrc : removeRec fl m c = m := removeRec_of_lookup_none fl m c hc
          rw [hrc] at ok2 co2 kill2 surv2 ⊢
          exact surv2 rank hr ρ
            (fun x hx g hg => hcs x (List.mem_cons_of_mem c hx) g hg)
            k fk hk hkρ
        · cases hcg : lookupF m c with
          | none => exact absurd hcg hc
          | some g =>
              have hρc : ρ < rank c := hcs c (List.mem_cons_self c cs') g hcg
              have h1 : lookupF (removeRec fl m c) k ≠ none :=
                surv1 rank hr k fk hk (lt_of_le_of_lt hkρ hρc)
              cases hk1 : lookupF (removeRec fl m c) k with
              | none => exact absurd hk1 h1
              | some fk1 =>
                  refine surv2 rank (rankOk_of_removalOk rank hr ok1) ρ
                    ?_ k fk1 hk1 hkρ
                  intro x hx g' hg'
                  obtain ⟨g0, hg0, _⟩ := ok1.1 x g' hg'
                  exact hcs x (List.mem_cons_of_mem c hx) g0 hg0

/-- Correctness of `remove_frames_recursively` at any adequate fuel:
removal behaves as a closed subtree erasure (`RemovalOk`), preserves
child resolution, removes the requested frame, and never touches frames
ranked strictly below the removed root. -/
theorem removeRec_ok :
    ∀ (fuel : Nat) (m : FrameMap Frame) (id : FrameId) (B : FrameId → Prop),
      m.length ≤ fuel → (∀ c, B c → lookupF m c = none) → KeyMatchM m →
      ChildOkB B m →
      RemovalOk m (removeRec fuel m id) ∧ ChildOkB B (removeRec fuel m id)
      ∧ lookupF (removeRec fuel m id) id = none
      ∧ (∀ rank : FrameId → Nat, RankOk m rank →
          ∀ k fk, lookupF m k = some fk → rank k < rank id →
            lookupF (removeRec fuel m id) k ≠ none) := by
  intro fuel
  induction fuel with
  | zero =>
      intro m id B hlen hB hkm hco
      have hm : m = [] := List.eq_nil_of_length_eq_zero (Nat.le_zero.mp hlen)
      subst hm
      refine ⟨removalOk_refl [], hco, rfl, ?_⟩
      intro rank _ k fk hk
      cases hk
  | succ fl IH =>
      intro m id B hlen hB hkm hco
      cases hid : lookupF m id with
      | none =>
          have hr : removeRec (fl + 1) m id = m := by
            simp [removeRec, hid]
          rw [hr]
          refine ⟨removalOk_refl m, hco, hid, ?_⟩
          intro rank _ k fk hk _
          simp [hk]
      | some f =>
          have hfid : f.id = id := hkm id f hid
          set m1 := eraseF m id with hm1def
          set r' := removeList fl m1 f.child_frames with hr'def
          have hunfold : removeRec (fl + 1) m id =
              (match f.parent_frame with
               | some parentId => updateF r' parentId
                   (fun p => { p with
                     child_frames := setErase p.child_frames f.id })
               | none => r') := by
            simp only [removeRec, hid]
            rfl
          have hlen1 : m1.length ≤ fl := by
            rw [hm1def]
            have := eraseF_length_lt m id f hid
            omega
          have hB1 : ∀ c, (B c ∨ c = id) → lookupF m1 c = none := by
            intro c hc
            by_cases hcid : c = id
            · subst hcid; exact lookupF_eraseF_self m c
            · rcases hc with hc | hc
              · rw [hm1def, lookupF_eraseF_ne m id c hcid]
                exact hB c hc
              · exact absurd hc hcid
          have hm1lookup : ∀ k, k ≠ id → lookupF m1 k = lookupF m k :=
            fun k hk => lookupF_eraseF_ne m id k hk
          have hm1none : ∀ k, lookupF m k = none → lookupF m1 k = none := by
            intro k hk
            by_cases hkid : k = id
            · subst hkid; exact lookupF_eraseF_self m k
            · rw [hm1lookup k hkid]; exact hk
          have hkm1 : KeyMatchM m1 := by
            intro k g hk
            have hkid : k ≠ id := by
              intro hkid; subst hkid
              rw [hm1def, lookupF_eraseF_self] at hk; cases hk
            rw [hm1lookup k hkid] at hk
            exact hkm k g hk
          have hco1 : ChildOkB (fun c => B c ∨ c = id) m1 := by
            intro k g c hk hc
            have hkid : k ≠ id := by
              intro hkid; subst hkid
              rw [hm1def, lookupF_eraseF_self] at hk; cases hk
            rw [hm1lookup k hkid] at hk
            rcases hco k g c hk hc with hBc | ⟨g2, hg2, hp2⟩
            · exact Or.inl (Or.inl hBc)
            · by_cases hcid : c = id
              · exact Or.inl (Or.inr hcid)
              · exact Or.inr ⟨g2, by rw [hm1lookup c hcid]; exact hg2, hp2⟩
          obtain ⟨okL, coL, killL, survL⟩ := removeList_ok fl IH f.child_frames
            m1 (fun c => B c ∨ c = id) hlen1 hB1 hkm1 hco1
          have hid'none : lookupF r' id = none :=
            okL.2.1 id (lookupF_eraseF_self m id)
          have okM : RemovalOk m r' := by
            refine ⟨?_, ?_, ?_, ?_, ?_⟩
            · intro k f' hk
              have hkid : k ≠ id := by
                intro hkid; subst hkid; rw [hid'none] at hk; cases hk
              obtain ⟨f1, hf1, hs⟩ := okL.1 k f' hk
              rw [hm1lookup k hkid] at hf1
              exact ⟨f1, hf1, hs⟩
            · intro k hk
              exact okL.2.1 k (hm1none k hk)
            · intro k fk fk' c hfk hfk' hc hc'
              have hkid : k ≠ id := by
                intro hkid; subst hkid; rw [hid'none] at hfk'; cases hfk'
              have hfk1 : lookupF m1 k = some fk := by
                rw [hm1lookup k hkid]; exact hfk
              have hcc := okL.2.2.1 k fk fk' c hfk1 hfk' hc hc'
              refine ⟨?_, hcc.2⟩
              intro hmc
              exact hcc.1 (hm1none c hmc)
            · intro k fk hfk hk' c hc
              by_cases hkid : k = id
              · subst hkid
                rw [hid] at hfk
                cases hfk
                exact killL c hc
              · have hfk1 : lookupF m1 k = some fk := by
                  rw [hm1lookup k hkid]; exact hfk
                exact okL.2.2.2.1 k fk hfk1 hk' c hc
            · have h1 : r'.length ≤ m1.length := okL.2.2.2.2
              have h2 : m1.length < m.length := by
                rw [hm1def]
                exact eraseF_length_lt m id f hid
              omega
          have hptr : ∀ k fk', lookupF r' k = some fk' →
              id ∈ fk'.child_frames → ¬ B id → f.parent_frame = some k := by
            intro k fk' hk hmem hnB
            obtain ⟨fk, hfk, hs⟩ := okM.1 k fk' hk
            have hmem0 : id ∈ fk.child_frames := hs.2.2.2.2.2.2 hmem
            rcases hco k fk id hfk hmem0 with hBc | ⟨g, hg, hp⟩
            · exact absurd hBc hnB
            · rw [hid] at hg
              cases hg
              exact hp
          have hsurv' : ∀ rank : FrameId → Nat, RankOk m rank →
              ∀ k fk, lookupF m k = some fk → rank k < rank id →
              lookupF r' k ≠ none := by
            intro rank hr k fk hk hlt
            have hkid : k ≠ id := by
              intro hkid; subst hkid; omega
            have hrank1 : RankOk m1 rank := by
              intro a fa p ha hp
              have haid : a ≠ id := by
                intro haid; subst haid
                rw [hm1def, lookupF_eraseF_self] at ha; cases ha
              rw [hm1lookup a haid] at ha
              exact hr a fa p ha hp
            refine survL rank hrank1 (rank id) ?_ k fk
              (by rw [hm1lookup k hkid]; exact hk) (le_of_lt hlt)
            intro c hc g hg
            have hcid : c ≠ id := by
              intro hcid; subst hcid
              rw [hm1def, lookupF_eraseF_self] at hg; cases hg
            rw [hm1lookup c hcid] at hg
            rcases hco id f c hid hc with hBc | ⟨g2, hg2, hp2⟩
            · rw [hB c hBc] at hg; cases hg
            · rw [hg] at hg2
              cases hg2
              exact hr c g id hg hp2
          cases hpar : f.parent_frame with
          | none =>
              simp only [hpar] at hunfold
              rw [hunfold]
              refine ⟨okM, ?_, hid'none, ?_⟩
              · intro k fk' c hk hc
                rcases coL k fk' c hk hc with (hBc | hcid) | ⟨g', hg', hp'⟩
                · exact Or.inl hBc
                · subst hcid
                  by_cases hnB : B c
                  · exact Or.inl hnB
                  · have := hptr k fk' hk hc hnB
                    rw [hpar] at this
                    cases this
                · exact Or.inr ⟨g', hg', hp'⟩
              · exact hsurv'
          | some p0 =>
              simp only [hpar] at hunfold
              rw [hunfold, hfid]
              set gU := fun q : Frame =>
                { q with child_frames := setErase q.child_frames id }
                with hgUdef
              have hgUparent : ∀ q : Frame, (gU q).parent_frame = q.parent_frame :=
                fun q => rfl
              have hgUshrink : ∀ q : Frame, ShrinkF q (gU q) := by
                intro q
                refine ⟨rfl, rfl, rfl, rfl, rfl, rfl, ?_⟩
                intro x hx
                exact ((mem_setErase _ _ _).mp hx).1
              have hlookr : ∀ k, lookupF (updateF r' p0 gU) k =
                  if k = p0 then (lookupF r' p0).map gU else lookupF r' k := by
                intro k
                by_cases hk : k = p0
                · subst hk; simp [lookupF_updateF]
                · simp [lookupF_updateF_ne r' p0 k gU hk, hk]
              have hidr : lookupF (updateF r' p0 gU) id = none :=
                (lookupF_updateF_eq_none r' p0 id gU).mpr hid'none
              have hres : ∀ c g2 k, lookupF r' c = some g2 →
                  g2.parent_frame = some k →
                  ∃ g3, lookupF (updateF r' p0 gU) c = some g3
                    ∧ g3.parent_frame = some k := by
                intro c g2 k hg2 hp
                by_cases hcp : c = p0
                · subst hcp
                  refine ⟨gU g2, ?_, hp⟩
                  rw [hlookr, if_pos rfl, hg2]
                  rfl
                · exact ⟨g2, by rw [hlookr, if_neg hcp]; exact hg2, hp⟩
              refine ⟨?_, ?_, hidr, ?_⟩
              · -- RemovalOk m (updateF r' p0 gU)
                refine ⟨?_, ?_, ?_, ?_, ?_⟩
                · intro k f' hk
                  rw [hlookr] at hk
                  by_cases hkp : k = p0
                  · rw [if_pos hkp] at hk
                    cases hp0 : lookupF r' p0 with
                    | none => rw [hp0] at hk; cases hk
                    | some g' =>
                        rw [hp0] at hk
                        cases hk
                        subst hkp
                        obtain ⟨g0, hg0, hs⟩ := okM.1 k g' hp0
                        exact ⟨g0, hg0, shrinkF_trans hs (hgUshrink g')⟩
                  · rw [if_neg hkp] at hk
                    exact okM.1 k f' hk
                · intro k hk
                  exact (lookupF_updateF_eq_none r' p0 k gU).mpr
                    (okM.2.1 k hk)
                · intro k fk fk' c hfk hfk' hc hc'
                  rw [hlookr] at hfk'
                  by_cases hkp : k = p0
                  · rw [if_pos hkp] at hfk'
                    cases hp0 : lookupF r' p0 with
                    | none => rw [hp0] at hfk'; cases hfk'
                    | some g' =>
                        rw [hp0] at hfk'
                        cases hfk'
                        subst hkp
                        by_cases hcg : c ∈ g'.child_frames
                        · have hcid : c = id := by
                            by_contra hne
                            exact hc' ((mem_setErase _ _ _).mpr ⟨hcg, hne⟩)
                          subst hcid
                          refine ⟨by rw [hid]; simp, hidr⟩
                        · have := okM.2.2.1 k fk g' c hfk hp0 hc hcg
                          exact ⟨this.1,
                            (lookupF_updateF_eq_none r' k c gU).mpr this.2⟩
                  · rw [if_neg hkp] at hfk'
                    have := okM.2.2.1 k fk fk' c hfk hfk' hc hc'
                    exact ⟨this.1,
                      (lookupF_updateF_eq_none r' p0 c gU).mpr this.2⟩
                · intro k fk hfk hk' c hc
                  have hk'r : lookupF r' k = none :=
                    (lookupF_updateF_eq_none r' p0 k gU).mp hk'
                  exact (lookupF_updateF_eq_none r' p0 c gU).mpr
                    (okM.2.2.2.1 k fk hfk hk'r c hc)
                · rw [updateF_length]
                  exact okM.2.2.2.2
              · -- ChildOkB B (updateF r' p0 gU)
                intro k fk' c hk hc
                rw [hlookr] at hk
                by_cases hkp : k = p0
                · rw [if_pos hkp] at hk
                  cases hp0 : lookupF r' p0 with
                  | none => rw [hp0] at hk; cases hk
                  | some g' =>
                      rw [hp0] at hk
                      cases hk
                      subst hkp
                      have hc' := (mem_setErase _ _ _).mp hc
                      rcases coL k g' c hp0 hc'.1 with (hBc | hcid)
                          | ⟨g2, hg2, hp2⟩
                      · exact Or.inl hBc
                      · exact absurd hcid hc'.2
                      · exact Or.inr (hres c g2 k hg2 hp2)
                · rw [if_neg hkp] at hk
                  rcases coL k fk' c hk hc with (hBc | hcid) | ⟨g2, hg2, hp2⟩
                  · exact Or.inl hBc
                  · subst hcid
                    by_cases hnB : B c
                    · exact Or.inl hnB
                    · have := hptr k fk' hk hc hnB
                      rw [hpar] at this
                      cases this
                      exact absurd rfl hkp
                  · exact Or.inr (hres c g2 k hg2 hp2)
              · -- survival
                intro rank hr k fk hk hlt
                intro hnone
                exact hsurv' rank hr k fk hk hlt
                  ((lookupF_updateF_eq_none r' p0 k gU).mp hnone)

theorem mem_setInsert_self {α : Type} [DecidableEq α] (s : List α) (a : α) :
    a ∈ setInsert s a := by
  unfold setInsert
  split
  · assumption
  · exact List.mem_cons_self a s

/-- The erase-then-remove-children pattern shared by `on_frame_navigated`
(both branches): erase frame `id`, then run the removal loop over its
recorded children.  Conclusions: subtree-erasure shape relative to the
original map, child resolution up to dangling pointers at `id`, death of
`id` and of all its recorded children, the only possible holder of a
surviving pointer to `id` being `id`'s recorded parent, and survival of
everything ranked at most `rank id` (other than `id` itself). -/
theorem erase_fold_ok (m : FrameMap Frame) (id : FrameId) (f : Frame)
    (hid : lookupF m id = some f) (hkm : KeyMatchM m)
    (hco : ChildOkB (fun _ => False) m) :
    RemovalOk m
      (removeList ((eraseF m id).length + 1) (eraseF m id) f.child_frames)
    ∧ ChildOkB (fun c => c = id)
      (removeList ((eraseF m id).length + 1) (eraseF m id) f.child_frames)
    ∧ lookupF
      (removeList ((eraseF m id).length + 1) (eraseF m id) f.child_frames)
      id = none
    ∧ (∀ c ∈ f.child_frames, lookupF
        (removeList ((eraseF m id).length + 1) (eraseF m id) f.child_frames)
        c = none)
    ∧ (∀ k fk', lookupF
        (removeList ((eraseF m id).length + 1) (eraseF m id) f.child_frames)
        k = some fk' → id ∈ fk'.child_frames → f.parent_frame = some k)
    ∧ (∀ rank : FrameId → Nat, RankOk m rank →
        ∀ k fk, lookupF m k = some fk → k ≠ id → rank k ≤ rank id →
          lookupF
            (removeList ((eraseF m id).length + 1) (eraseF m id)
              f.child_frames) k ≠ none)
    ∧ RemovalOk (eraseF m id)
      (removeList ((eraseF m id).length + 1) (eraseF m id) f.child_frames)
      := by
  set m1 := eraseF m id with hm1def
  set r' := removeList (m1.length + 1) m1 f.child_frames with hr'def
  have hm1lookup : ∀ k, k ≠ id → lookupF m1 k = lookupF m k :=
    fun k hk => lookupF_eraseF_ne m id k hk
  have hm1self : lookupF m1 id = none := lookupF_eraseF_self m id
  have hm1none : ∀ k, lookupF m k = none → lookupF m1 k = none := by
    intro k hk
    by_cases hkid : k = id
    · subst hkid; exact hm1self
    · rw [hm1lookup k hkid]; exact hk
  have hB1 : ∀ c, c = id → lookupF m1 c = none := by
    intro c hc; subst hc; exact hm1self
  have hkm1 : KeyMatchM m1 := by
    intro k g hk
    have hkid : k ≠ id := by
      intro hkid; subst hkid; rw [hm1self] at hk; cases hk
    rw [hm1lookup k hkid] at hk
    exact hkm k g hk
  have hco1 : ChildOkB (fun c => c = id) m1 := by
    intro k g c hk hc
    have hkid : k ≠ id := by
      intro hkid; subst hkid; rw [hm1self] at hk; cases hk
    rw [hm1lookup k hkid] at hk
    rcases hco k g c hk hc with hF | ⟨g2, hg2, hp2⟩
    · exact hF.elim
    · by_cases hcid : c = id
      · exact Or.inl hcid
      · exact Or.inr ⟨g2, by rw [hm1lookup c hcid]; exact hg2, hp2⟩
  obtain ⟨okL, coL, killL, survL⟩ :=
    removeList_ok (m1.length + 1)
      (fun m2 id2 B2 h1 h2 h3 h4 =>
        removeRec_ok (m1.length + 1) m2 id2 B2 h1 h2 h3 h4)
      f.child_frames m1 (fun c => c = id) (Nat.le_succ _) hB1 hkm1 hco1
  have hidr : lookupF r' id = none := okL.2.1 id hm1self
  have okM : RemovalOk m r' := by
    refine ⟨?_, ?_, ?_, ?_, ?_⟩
    · intro k f' hk
      have hkid : k ≠ id := by
        intro hkid; subst hkid; rw [hidr] at hk; cases hk
      obtain ⟨f1, hf1, hs⟩ := okL.1 k f' hk
      rw [hm1lookup k hkid] at hf1
      exact ⟨f1, hf1, hs⟩
    · intro k hk
      exact okL.2.1 k (hm1none k hk)
    · intro k fk fk' c hfk hfk' hc hc'
      have hkid : k ≠ id := by
        intro hkid; subst hkid; rw [hidr] at hfk'; cases hfk'
      have hfk1 : lookupF m1 k = some fk := by
        rw [hm1lookup k hkid]; exact hfk
      have hcc := okL.2.2.1 k fk fk' c hfk1 hfk' hc hc'
      exact ⟨fun hmc => hcc.1 (hm1none c hmc), hcc.2⟩
    · intro k fk hfk hk' c hc
      by_cases hkid : k = id
      · subst hkid
        rw [hid] at hfk
        cases hfk
        exact killL c hc
      · have hfk1 : lookupF m1 k = some fk := by
          rw [hm1lookup k hkid]; exact hfk
        exact okL.2.2.2.1 k fk hfk1 hk' c hc
    · have h1 : r'.length ≤ m1.length := okL.2.2.2.2
      have h2 : m1.length < m.length := by
        rw [hm1def]
        exact eraseF_length_lt m id f hid
      omega
  refine ⟨okM, coL, hidr, killL, ?_, ?_, okL⟩
  · intro k fk' hk hmem
    obtain ⟨fk, hfk, hs⟩ := okM.1 k fk' hk
    have hmem0 : id ∈ fk.child_frames := hs.2.2.2.2.2.2 hmem
    rcases hco k fk id hfk hmem0 with hF | ⟨g, hg, hp⟩
    · exact hF.elim
    · rw [hid] at hg
      cases hg
      exact hp
  · intro rank hr k fk hk hkid hle
    have hrank1 : RankOk m1 rank := by
      intro a fa p ha hp
      have haid : a ≠ id := by
        intro haid; subst haid; rw [hm1self] at ha; cases ha
      rw [hm1lookup a haid] at ha
      exact hr a fa p ha hp
    refine survL rank hrank1 (rank id) ?_ k fk
      (by rw [hm1lookup k hkid]; exact hk) hle
    intro c hc g hg
    have hcid : c ≠ id := by
      intro hcid; subst hcid; rw [hm1self] at hg; cases hg
    rw [hm1lookup c hcid] at hg
    rcases hco id f c hid hc with hF | ⟨g2, hg2, hp2⟩
    · exact hF.elim
    · rw [hg] at hg2
      cases hg2
      exact hr c g id hg hp2

/-- By following parent links (finitely, as the rank strictly drops),
every tracked frame has an ancestor with no parent, of rank at most its
own. -/
theorem wf_root_chain (m : FrameMap Frame) (hpar : ParentOkS m)
    (rank : FrameId → Nat) (hrank : RankOk m rank) :
    ∀ k f, lookupF m k = some f →
      ∃ rk rf, lookupF m rk = some rf ∧ rf.parent_frame = none
        ∧ rank rk ≤ rank k := by
  have H : ∀ n k f, rank k ≤ n → lookupF m k = some f →
      ∃ rk rf, lookupF m rk = some rf ∧ rf.parent_frame = none
        ∧ rank rk ≤ rank k := by
    intro n
    induction n with
    | zero =>
        intro k f hle hk
        cases hpn : f.parent_frame with
        | none => exact ⟨k, f, hk, hpn, le_refl _⟩
        | some p =>
            have h1 := hrank k f p hk hpn
            omega
    | succ n ih =>
        intro k f hle hk
        cases hpn : f.parent_frame with
        | none => exact ⟨k, f, hk, hpn, le_refl _⟩
        | some p =>
            obtain ⟨g, hg, _⟩ := hpar k f p hk hpn
            have h1 := hrank k f p hk hpn
            obtain ⟨rk, rf, hrk, hrfp, hrle⟩ := ih p g (by omega) hg
            exact ⟨rk, rf, hrk, hrfp, by omega⟩
  intro k f hk
  exact H (rank k) k f (le_refl _) hk

/-- In a well-formed manager the tracked main frame, when present in the
map, has no parent. -/
theorem wf_main_parent_none (fm : FrameManager) (h : Wf fm) (mk : FrameId)
    (f : Frame) (hm : fm.main_frame = some mk)
    (hf : lookupF fm.frames mk = some f) : f.parent_frame = none := by
  obtain ⟨hkm, hco, hpar, hroot, rank, hrank⟩ := h
  cases hpn : f.parent_frame with
  | none => rfl
  | some p =>
      obtain ⟨g, hg, _⟩ := hpar mk f p hf hpn
      obtain ⟨rk, rf, hrk, hrfp, hrle⟩ := wf_root_chain fm.frames hpar rank
        hrank p g hg
      have hmain2 := hroot rk rf hrk hrfp
      rw [hm] at hmain2
      cases hmain2
      have := hrank mk f p hf hpn
      omega

/-- In a well-formed manager with no tracked main frame, the map is
empty. -/
theorem wf_frames_nil_of_main_none (fm : FrameManager) (h : Wf fm)
    (hm : fm.main_frame = none) : fm.frames = [] := by
  obtain ⟨hkm, hco, hpar, hroot, rank, hrank⟩ := h
  cases hfr : fm.frames with
  | nil => rfl
  | cons e rest =>
      obtain ⟨k0, f0⟩ := e
      have hk0 : lookupF fm.frames k0 = some f0 := by
        rw [hfr]
        simp [lookupF]
      obtain ⟨rk, rf, hrk, hrfp, _⟩ := wf_root_chain fm.frames hpar rank
        hrank k0 f0 hk0
      have := hroot rk rf hrk hrfp
      rw [hm] at this
      cases this

/-- `Wf` holds of the empty manager. -/
theorem wf_default : Wf FrameManager.default := by
  refine ⟨?_, ?_, ?_, ?_, ⟨fun _ => 0, ?_⟩⟩
  · intro k f hk; cases hk
  · intro k f c hk _; cases hk
  · intro k f p hk _; cases hk
  · intro k f hk _; cases hk
  · intro k f p hk _; cases hk

/-- Updating one entry while preserving id, parent and children (the
lifecycle, stopped-loading and within-document events) preserves `Wf`. -/
theorem wf_updateF (fm : FrameManager) (k0 : FrameId) (g : Frame → Frame)
    (hg : ∀ f : Frame, (g f).id = f.id ∧ (g f).parent_frame = f.parent_frame
      ∧ (g f).child_frames = f.child_frames)
    (h : Wf fm) : Wf { fm with frames := updateF fm.frames k0 g } := by
  obtain ⟨hkm, hco, hpar, hroot, rank, hrank⟩ := h
  have hlk : ∀ k, lookupF (updateF fm.frames k0 g) k =
      match lookupF fm.frames k with
      | none => none
      | some f => some (if k = k0 then g f else f) := by
    intro k
    by_cases hk : k = k0
    · subst hk
      rw [lookupF_updateF]
      cases lookupF fm.frames k <;> simp
    · rw [lookupF_updateF_ne fm.frames k0 k g hk]
      cases lookupF fm.frames k <;> simp [hk]
  have hcorr : ∀ k f', lookupF (updateF fm.frames k0 g) k = some f' →
      ∃ f, lookupF fm.frames k = some f ∧ f'.id = f.id
        ∧ f'.parent_frame = f.parent_frame
        ∧ f'.child_frames = f.child_frames := by
    intro k f' hk
    rw [hlk] at hk
    cases hf : lookupF fm.frames k with
    | none => rw [hf] at hk; cases hk
    | some f =>
        rw [hf] at hk
        cases hk
        by_cases hkk : k = k0
        · simp only [hkk, if_true]
          exact ⟨f, rfl, (hg f).1, (hg f).2.1, (hg f).2.2⟩
        · simp only [hkk, if_false]
          exact ⟨f, rfl, rfl, rfl, rfl⟩
  have hback : ∀ k f, lookupF fm.frames k = some f →
      ∃ f', lookupF (updateF fm.frames k0 g) k = some f'
        ∧ f'.parent_frame = f.parent_frame
        ∧ f'.child_frames = f.child_frames := by
    intro k f hk
    rw [hlk, hk]
    by_cases hkk : k = k0
    · exact ⟨if k = k0 then g f else f, rfl, by simp [hkk, (hg f).2.1],
        by simp [hkk, (hg f).2.2]⟩
    · exact ⟨if k = k0 then g f else f, rfl, by simp [hkk], by simp [hkk]⟩
  refine ⟨?_, ?_, ?_, ?_, ⟨rank, ?_⟩⟩
  · intro k f' hk
    obtain ⟨f, hf, hi, _, _⟩ := hcorr k f' hk
    rw [hi]
    exact hkm k f hf
  · intro k f' c hk hc
    obtain ⟨f, hf, _, _, hch⟩ := hcorr k f' hk
    rw [hch] at hc
    rcases hco k f c hf hc with hF | ⟨g2, hg2, hp2⟩
    · exact hF.elim
    · obtain ⟨g2', hg2', hp2', _⟩ := hback c g2 hg2
      exact Or.inr ⟨g2', hg2', by rw [hp2']; exact hp2⟩
  · intro k f' p hk hp
    obtain ⟨f, hf, _, hpp, _⟩ := hcorr k f' hk
    rw [hpp] at hp
    obtain ⟨g2, hg2, hmem⟩ := hpar k f p hf hp
    obtain ⟨g2', hg2', _, hch'⟩ := hback p g2 hg2
    exact ⟨g2', hg2', by rw [hch']; exact hmem⟩
  · intro k f' hk hp
    obtain ⟨f, hf, _, hpp, _⟩ := hcorr k f' hk
    rw [hpp] at hp
    exact hroot k f hf hp
  · intro k f' p hk hp
    obtain ⟨f, hf, _, hpp, _⟩ := hcorr k f' hk
    rw [hpp] at hp
    exact hrank k f p hf hp

theorem wf_within_document (fm : FrameManager)
    (ev : EventNavigatedWithinDocument) (h : Wf fm) :
    Wf (fm.on_frame_navigated_within_document ev) :=
  wf_updateF fm ev.frame_id _ (fun _ => ⟨rfl, rfl, rfl⟩) h

theorem wf_stopped_loading (fm : FrameManager)
    (ev : EventFrameStoppedLoading) (h : Wf fm) :
    Wf (fm.on_frame_stopped_loading ev) :=
  wf_updateF fm ev.frame_id _ (fun _ => ⟨rfl, rfl, rfl⟩) h

theorem wf_lifecycle (fm : FrameManager) (ev : EventLifecycleEvent)
    (h : Wf fm) : Wf (fm.on_page_lifecycle_event ev) := by
  refine wf_updateF fm ev.frame_id _ (fun f => ?_) h
  by_cases hinit : ev.name = "init" <;> simp [hinit]

theorem mem_setInsert_iff {α : Type} [DecidableEq α] (s : List α)
    (a x : α) : x ∈ setInsert s a ↔ x = a ∨ x ∈ s := by
  unfold setInsert
  split
  · constructor
    · exact fun h => Or.inr h
    · rintro (rfl | h)
      · assumption
      · exact h
  · simp [List.mem_cons]

theorem wf_attach (fm : FrameManager) (cid : FrameId) (pOpt : Option FrameId)
    (h : Wf fm) : Wf (fm.on_frame_attached cid pOpt) := by
  obtain ⟨hkm, hco, hpar, hroot, rank, hrank⟩ := h
  cases hc : lookupF fm.frames cid with
  | some f0 =>
      have heq : fm.on_frame_attached cid pOpt = fm := by
        unfold FrameManager.on_frame_attached
        rw [hc]
        rfl
      rw [heq]
      exact ⟨hkm, hco, hpar, hroot, rank, hrank⟩
  | none =>
      cases pOpt with
      | none =>
          have heq : fm.on_frame_attached cid none = fm := by
            unfold FrameManager.on_frame_attached
            rw [hc]
            rfl
          rw [heq]
          exact ⟨hkm, hco, hpar, hroot, rank, hrank⟩
      | some pid =>
          cases hp : lookupF fm.frames pid with
          | none =>
              have heq : fm.on_frame_attached cid (some pid) = fm := by
                simp [FrameManager.on_frame_attached, hc, hp]
              rw [heq]
              exact ⟨hkm, hco, hpar, hroot, rank, hrank⟩
          | some pf =>
              have hpidcid : pid ≠ cid := by
                intro e
                rw [e, hc] at hp
                cases hp
              set addc := fun p : Frame =>
                { p with child_frames := setInsert p.child_frames cid }
                with haddc
              set m2 := updateF fm.frames pid addc with hm2
              set mr := insertF m2 cid (Frame.with_parent cid pid) with hmr
              have heq : fm.on_frame_attached cid (some pid) =
                  { fm with frames := mr } := by
                simp only [FrameManager.on_frame_attached, hc, hp]
                rfl
              rw [heq]
              have hl_cid : lookupF mr cid =
                  some (Frame.with_parent cid pid) := by
                rw [hmr]
                unfold insertF
                simp [lookupF]
              have hl_ne : ∀ k, k ≠ cid → lookupF mr k = lookupF m2 k := by
                intro k hk
                rw [hmr]
                unfold insertF
                show lookupF ((cid, _) :: eraseF m2 cid) k = _
                rw [lookupF]
                rw [if_neg (Ne.symm hk)]
                exact lookupF_eraseF_ne m2 cid k hk
              have hl2 : ∀ k, lookupF m2 k =
                  match lookupF fm.frames k with
                  | none => none
                  | some f => some (if k = pid then addc f else f) := by
                intro k
                by_cases hk : k = pid
                · subst hk
                  rw [hm2, lookupF_updateF]
                  cases lookupF fm.frames k <;> simp
                · rw [hm2, lookupF_updateF_ne fm.frames pid k addc hk]
                  cases lookupF fm.frames k <;> simp [hk]
              have htrans : ∀ c g2, lookupF fm.frames c = some g2 →
                  ∃ g3, lookupF mr c = some g3
                    ∧ g3.parent_frame = g2.parent_frame
                    ∧ g2.child_frames ⊆ g3.child_frames := by
                intro c g2 hg2
                have hccid : c ≠ cid := by
                  intro e
                  rw [e, hc] at hg2
                  cases hg2
                rw [hl_ne c hccid, hl2 c, hg2]
                by_cases hcp : c = pid
                · refine ⟨addc g2, by simp [hcp], rfl, ?_⟩
                  intro x hx
                  exact mem_setInsert_of_mem _ _ _ hx
                · exact ⟨g2, by simp [hcp], rfl, fun x hx => hx⟩
              have hl_pid : lookupF mr pid = some (addc pf) := by
                rw [hl_ne pid hpidcid, hl2 pid, hp]
                simp
              refine ⟨?_, ?_, ?_, ?_,
                ⟨fun x => if x = cid then rank pid + 1 else rank x, ?_⟩⟩
              · intro k f' hk
                by_cases hkc : k = cid
                · subst hkc
                  rw [hl_cid] at hk
                  cases hk
                  rfl
                · rw [hl_ne k hkc, hl2 k] at hk
                  cases hf : lookupF fm.frames k with
                  | none => rw [hf] at hk; cases hk
                  | some f =>
                      rw [hf] at hk
                      cases hk
                      have := hkm k f hf
                      by_cases hkp : k = pid <;> simp [hkp, haddc, this]
              · intro k f' c hk hcmem
                by_cases hkc : k = cid
                · subst hkc
                  rw [hl_cid] at hk
                  cases hk
                  cases hcmem
                · rw [hl_ne k hkc, hl2 k] at hk
                  cases hf : lookupF fm.frames k with
                  | none => rw [hf] at hk; cases hk
                  | some f =>
                      rw [hf] at hk
                      cases hk
                      by_cases hkp : k = pid
                      · simp only [if_pos hkp] at hcmem
                        rcases (mem_setInsert_iff _ _ _).mp hcmem with rfl | hcm
                        · refine Or.inr ⟨Frame.with_parent c pid, hl_cid, ?_⟩
                          simp [Frame.with_parent, hkp]
                        · rcases hco k f c hf hcm with hF | ⟨g2, hg2, hp2⟩
                          · exact hF.elim
                          · obtain ⟨g3, hg3, hpe, _⟩ := htrans c g2 hg2
                            exact Or.inr ⟨g3, hg3, by rw [hpe]; exact hp2⟩
                      · simp only [if_neg hkp] at hcmem
                        rcases hco k f c hf hcmem with hF | ⟨g2, hg2, hp2⟩
                        · exact hF.elim
                        · obtain ⟨g3, hg3, hpe, _⟩ := htrans c g2 hg2
                          exact Or.inr ⟨g3, hg3, by rw [hpe]; exact hp2⟩
              · intro k f' p hk hpp
                by_cases hkc : k = cid
                · subst hkc
                  rw [hl_cid] at hk
                  cases hk
                  have hppid : p = pid := by
                    have : (Frame.with_parent k pid).parent_frame = some pid :=
                      rfl
                    rw [this] at hpp
                    cases hpp
                    rfl
                  subst hppid
                  exact ⟨addc pf, hl_pid, mem_setInsert_self _ _⟩
                · rw [hl_ne k hkc, hl2 k] at hk
                  cases hf : lookupF fm.frames k with
                  | none => rw [hf] at hk; cases hk
                  | some f =>
                      rw [hf] at hk
                      cases hk
                      have hppf : f.parent_frame = some p := by
                        by_cases hkp : k = pid
                        · simpa [hkp, haddc] using hpp
                        · simpa [hkp] using hpp
                      obtain ⟨g, hg, hmem⟩ := hpar k f p hf hppf
                      obtain ⟨g3, hg3, _, hsub⟩ := htrans p g hg
                      exact ⟨g3, hg3, hsub hmem⟩
              · intro k f' hk hpp
                by_cases hkc : k = cid
                · subst hkc
                  rw [hl_cid] at hk
                  cases hk
                  cases hpp
                · rw [hl_ne k hkc, hl2 k] at hk
                  cases hf : lookupF fm.frames k with
                  | none => rw [hf] at hk; cases hk
                  | some f =>
                      rw [hf] at hk
                      cases hk
                      have hppf : f.parent_frame = none := by
                        by_cases hkp : k = pid
                        · simpa [hkp, haddc] using hpp
                        · simpa [hkp] using hpp
                      exact hroot k f hf hppf
              · intro k f' p hk hpp
                by_cases hkc : k = cid
                · subst hkc
                  rw [hl_cid] at hk
                  cases hk
                  have hppid : p = pid := by
                    have : (Frame.with_parent k pid).parent_frame = some pid :=
                      rfl
                    rw [this] at hpp
                    cases hpp
                    rfl
                  subst hppid
                  simp [hpidcid]
                · rw [hl_ne k hkc, hl2 k] at hk
                  cases hf : lookupF fm.frames k with
                  | none => rw [hf] at hk; cases hk
                  | some f =>
                      rw [hf] at hk
                      cases hk
                      have hppf : f.parent_frame = some p := by
                        by_cases hkp : k = pid
                        · simpa [hkp, haddc] using hpp
                        · simpa [hkp] using hpp
                      have hr := hrank k f p hf hppf
                      obtain ⟨g, hg, _⟩ := hpar k f p hf hppf
                      have hpcid : p ≠ cid := by
                        intro e
                        rw [e, hc] at hg
                        cases hg
                      simp only [hkc, hpcid, if_false]
                      exact hr

theorem wf_detach (fm : FrameManager) (ev : EventFrameDetached)
    (h : Wf fm) : Wf (fm.on_frame_detached ev) := by
  obtain ⟨hkm, hco, hpar, hroot, rank, hrank⟩ := h
  obtain ⟨okR, coR, hidR, survR⟩ := removeRec_ok (fm.frames.length + 1)
    fm.frames ev.frame_id (fun _ => False) (Nat.le_succ _)
    (fun c hc => hc.elim) hkm hco
  have hframes : (fm.on_frame_detached ev).frames =
      removeRec (fm.frames.length + 1) fm.frames ev.frame_id := rfl
  have hmain : (fm.on_frame_detached ev).main_frame = fm.main_frame := rfl
  refine ⟨?_, ?_, ?_, ?_, ⟨rank, ?_⟩⟩
  · rw [hframes]
    exact keyMatch_of_removalOk hkm okR
  · rw [hframes]
    exact coR
  · rw [hframes]
    intro k f' p hk hpp
    obtain ⟨f0, hf0, hs⟩ := okR.1 k f' hk
    have hp0 : f0.parent_frame = some p := by rw [← hs.2.1]; exact hpp
    obtain ⟨g, hg, hmem⟩ := hpar k f0 p hf0 hp0
    cases hgp : lookupF (removeRec (fm.frames.length + 1) fm.frames
        ev.frame_id) p with
    | none =>
        have hknone := okR.2.2.2.1 p g hg hgp k hmem
        rw [hknone] at hk
        cases hk
    | some g' =>
        refine ⟨g', rfl, ?_⟩
        by_contra hnm
        have hcc := okR.2.2.1 p g g' k hg hgp hmem hnm
        rw [hcc.2] at hk
        cases hk
  · intro k f' hk hpp
    rw [hframes] at hk
    rw [hmain]
    obtain ⟨f0, hf0, hs⟩ := okR.1 k f' hk
    exact hroot k f0 hf0 (by rw [← hs.2.1]; exact hpp)
  · rw [hframes]
    exact rankOk_of_removalOk rank hrank okR

theorem lookupF_insertF_self (m : FrameMap F) (k : FrameId) (f : F) :
    lookupF (insertF m k f) k = some f := by
  unfold insertF
  simp [lookupF]

theorem lookupF_insertF_ne (m : FrameMap F) (k : FrameId) (f : F)
    (k' : FrameId) (h : k' ≠ k) :
    lookupF (insertF m k f) k' = lookupF m k' := by
  unfold insertF
  rw [lookupF, if_neg (Ne.symm h)]
  exact lookupF_eraseF_ne m k k' h

/-- A manager holding a single parentless, childless frame that is the
tracked main frame is well-formed. -/
theorem wf_singleton (fm2 : FrameManager) (k0 : FrameId) (f0 : Frame)
    (hid : f0.id = k0) (hpar0 : f0.parent_frame = none)
    (hch : f0.child_frames = []) (hframes : fm2.frames = [(k0, f0)])
    (hmain : fm2.main_frame = some k0) : Wf fm2 := by
  have hlk : ∀ k g, lookupF fm2.frames k = some g → k = k0 ∧ g = f0 := by
    intro k g hk
    rw [hframes] at hk
    unfold lookupF at hk
    by_cases h : k0 = k
    · rw [if_pos h] at hk
      cases hk
      exact ⟨h.symm, rfl⟩
    · rw [if_neg h] at hk
      cases hk
  refine ⟨?_, ?_, ?_, ?_, ⟨fun _ => 0, ?_⟩⟩
  · intro k g hk
    obtain ⟨rfl, rfl⟩ := hlk k g hk
    exact hid
  · intro k g c hk hc
    obtain ⟨rfl, rfl⟩ := hlk k g hk
    rw [hch] at hc
    cases hc
  · intro k g p hk hp
    obtain ⟨rfl, rfl⟩ := hlk k g hk
    rw [hpar0] at hp
    cases hp
  · intro k g hk _
    obtain ⟨rfl, rfl⟩ := hlk k g hk
    exact hmain
  · intro k g p hk hp
    obtain ⟨rfl, rfl⟩ := hlk k g hk
    rw [hpar0] at hp
    cases hp

theorem wf_navigated (fm : FrameManager) (cf : CdpFrame)
    (fm' : FrameManager) (heq : fm.on_frame_navigated cf = some fm')
    (h : Wf fm) : Wf fm' := by
  have hwf := h
  obtain ⟨hkm, hco, hpar, hroot, rank, hrank⟩ := h
  unfold FrameManager.on_frame_navigated at heq
  split at heq
  · -- child-frame navigation
    cases hfe : lookupF fm.frames cf.id with
    | none =>
        rw [hfe] at heq
        cases heq
        exact hwf
    | some f =>
        rw [hfe] at heq
        cases heq
        obtain ⟨okM, coL, hidr, killL, hptr, hsurv, okL⟩ :=
          erase_fold_ok fm.frames cf.id f hfe hkm hco
        have hfid : f.id = cf.id := hkm cf.id f hfe
        set r' := removeList ((eraseF fm.frames cf.id).length + 1)
          (eraseF fm.frames cf.id) f.child_frames with hr'def
        set fNew := Frame.navigated { f with child_frames := [] } cf
          with hfNew
        have hfNparent : fNew.parent_frame = f.parent_frame := rfl
        have hfNid : fNew.id = f.id := rfl
        have hfNch : fNew.child_frames = [] := rfl
        have hl_self : lookupF (insertF r' cf.id fNew) cf.id = some fNew :=
          lookupF_insertF_self r' cf.id fNew
        have hl_ne : ∀ k, k ≠ cf.id →
            lookupF (insertF r' cf.id fNew) k = lookupF r' k :=
          fun k hk => lookupF_insertF_ne r' cf.id fNew k hk
        refine ⟨?_, ?_, ?_, ?_, ⟨rank, ?_⟩⟩
        · intro k g hk
          by_cases hkc : k = cf.id
          · subst hkc
            rw [hl_self] at hk
            cases hk
            rw [hfNid, hfid]
          · rw [hl_ne k hkc] at hk
            obtain ⟨g0, hg0, hs⟩ := okM.1 k g hk
            rw [hs.1]
            exact hkm k g0 hg0
        · intro k g c hk hc
          by_cases hkc : k = cf.id
          · subst hkc
            rw [hl_self] at hk
            cases hk
            rw [hfNch] at hc
            cases hc
          · rw [hl_ne k hkc] at hk
            rcases coL k g c hk hc with hcid | ⟨g2, hg2, hp2⟩
            · subst hcid
              have hpk : f.parent_frame = some k := hptr k g hk hc
              refine Or.inr ⟨fNew, hl_self, ?_⟩
              rw [hfNparent]
              exact hpk
            · have hccid : c ≠ cf.id := by
                intro e
                rw [e, hidr] at hg2
                cases hg2
              exact Or.inr ⟨g2, by rw [hl_ne c hccid]; exact hg2, hp2⟩
        · intro k g p hk hp
          by_cases hkc : k = cf.id
          · subst hkc
            rw [hl_self] at hk
            cases hk
            rw [hfNparent] at hp
            obtain ⟨g0, hg0, hmem⟩ := hpar cf.id f p hfe hp
            have hrkp : rank p < rank cf.id := hrank cf.id f p hfe hp
            have hpcid : p ≠ cf.id := by
              intro e
              rw [e] at hrkp
              omega
            have hpr' : lookupF r' p ≠ none :=
              hsurv rank hrank p g0 hg0 hpcid (le_of_lt hrkp)
            cases hgp : lookupF r' p with
            | none => exact absurd hgp hpr'
            | some g' =>
                refine ⟨g', by rw [hl_ne p hpcid]; exact hgp, ?_⟩
                by_contra hnm
                have hm1p : lookupF (eraseF fm.frames cf.id) p = some g0 := by
                  rw [lookupF_eraseF_ne fm.frames cf.id p hpcid]
                  exact hg0
                have hcc := okL.2.2.1 p g0 g' cf.id hm1p hgp hmem hnm
                exact hcc.1 (lookupF_eraseF_self fm.frames cf.id)
          · rw [hl_ne k hkc] at hk
            obtain ⟨g0, hg0, hs⟩ := okM.1 k g hk
            have hp0 : g0.parent_frame = some p := by
              rw [← hs.2.1]; exact hp
            obtain ⟨g1, hg1, hmem⟩ := hpar k g0 p hg0 hp0
            by_cases hpc : p = cf.id
            · subst hpc
              rw [hfe] at hg1
              cases hg1
              have := killL k hmem
              rw [this] at hk
              cases hk
            · cases hgp : lookupF r' p with
              | none =>
                  have := okM.2.2.2.1 p g1 hg1 hgp k hmem
                  rw [this] at hk
                  cases hk
              | some g' =>
                  refine ⟨g', by rw [hl_ne p hpc]; exact hgp, ?_⟩
                  by_contra hnm
                  have hcc := okM.2.2.1 p g1 g' k hg1 hgp hmem hnm
                  rw [hcc.2] at hk
                  cases hk
        · intro k g hk hp
          by_cases hkc : k = cf.id
          · subst hkc
            rw [hl_self] at hk
            cases hk
            rw [hfNparent] at hp
            exact hroot cf.id f hfe hp
          · rw [hl_ne k hkc] at hk
            obtain ⟨g0, hg0, hs⟩ := okM.1 k g hk
            exact hroot k g0 hg0 (by rw [← hs.2.1]; exact hp)
        · intro k g p hk hp
          by_cases hkc : k = cf.id
          · subst hkc
            rw [hl_self] at hk
            cases hk
            rw [hfNparent] at hp
            exact hrank cf.id f p hfe hp
          · rw [hl_ne k hkc] at hk
            obtain ⟨g0, hg0, hs⟩ := okM.1 k g hk
            exact hrank k g0 p hg0 (by rw [← hs.2.1]; exact hp)
  · -- top-level navigation
    split at heq
    case _ mainId hm =>
      split at heq
      case _ hmf => cases heq
      case _ mainF hmf =>
        cases heq
        obtain ⟨okM, coL, hidr, killL, hptr, hsurv, okL⟩ :=
          erase_fold_ok fm.frames mainId mainF hmf hkm hco
        set r' := removeList ((eraseF fm.frames mainId).length + 1)
          (eraseF fm.frames mainId) mainF.child_frames with hr'def
        have hparnone : mainF.parent_frame = none :=
          wf_main_parent_none fm hwf mainId mainF hm hmf
        have hempty : ∀ n k g, rank k ≤ n → lookupF r' k = some g →
            False := by
          intro n
          induction n with
          | zero =>
              intro k g hle hk
              obtain ⟨fk, hfk, hs⟩ := okM.1 k g hk
              cases hpn : fk.parent_frame with
              | none =>
                  have hmk := hroot k fk hfk hpn
                  rw [hm] at hmk
                  cases hmk
                  rw [hidr] at hk
                  cases hk
              | some p =>
                  have := hrank k fk p hfk hpn
                  omega
          | succ n ih =>
              intro k g hle hk
              obtain ⟨fk, hfk, hs⟩ := okM.1 k g hk
              cases hpn : fk.parent_frame with
              | none =>
                  have hmk := hroot k fk hfk hpn
                  rw [hm] at hmk
                  cases hmk
                  rw [hidr] at hk
                  cases hk
              | some p =>
                  obtain ⟨g1, hg1, hmem⟩ := hpar k fk p hfk hpn
                  have hrp := hrank k fk p hfk hpn
                  by_cases hpm : p = mainId
                  · subst hpm
                    rw [hmf] at hg1
                    cases hg1
                    have := killL k hmem
                    rw [this] at hk
                    cases hk
                  · cases hgp : lookupF r' p with
                    | none =>
                        have := okM.2.2.2.1 p g1 hg1 hgp k hmem
                        rw [this] at hk
                        cases hk
                    | some gp' => exact ih p gp' (by omega) hgp
        have hnil : r' = [] := by
          cases hr : r' with
          | nil => rfl
          | cons e rest =>
              obtain ⟨k0, g0⟩ := e
              have : lookupF r' k0 = some g0 := by
                rw [hr]
                simp [lookupF]
              exact absurd this (fun hx => hempty (rank k0) k0 g0
                (le_refl _) hx)
        refine wf_singleton _ _ _ rfl ?_ rfl ?_ rfl
        · exact hparnone
        · show insertF r' _ _ = _
          rw [hnil]
          rfl
    case _ hm =>
      cases heq
      have hnil0 : fm.frames = [] := wf_frames_nil_of_main_none fm hwf hm
      refine wf_singleton _ _ _ rfl rfl rfl ?_ rfl
      show insertF fm.frames _ _ = _
      rw [hnil0]
      rfl

mutual

theorem wf_onFrameTree : ∀ (fm : FrameManager) (t : FrameTree)
    (fm' : FrameManager), onFrameTree fm t = some fm' → Wf fm → Wf fm'
  | fm, FrameTree.mk cf children, fm', heq, h => by
      rw [onFrameTree] at heq
      cases hnav : (fm.on_frame_attached cf.id cf.parent_id).on_frame_navigated
          cf with
      | none =>
          simp only [hnav] at heq
          exact Option.noConfusion heq
      | some fm2 =>
          simp only [hnav] at heq
          have h1 := wf_attach fm cf.id cf.parent_id h
          have h2 := wf_navigated _ cf fm2 hnav h1
          exact wf_onFrameTrees fm2 children fm' heq h2

theorem wf_onFrameTrees : ∀ (fm : FrameManager) (ts : List FrameTree)
    (fm' : FrameManager), onFrameTrees fm ts = some fm' → Wf fm → Wf fm'
  | fm, [], fm', heq, h => by
      rw [onFrameTrees] at heq
      cases heq
      exact h
  | fm, t :: ts, fm', heq, h => by
      rw [onFrameTrees] at heq
      cases ht : onFrameTree fm t with
      | none =>
          simp only [ht] at heq
          exact Option.noConfusion heq
      | some fm2 =>
          simp only [ht] at heq
          exact wf_onFrameTrees fm2 ts fm' heq (wf_onFrameTree fm t fm2 ht h)

end

/-- The invariant holds in every reachable state. -/
theorem wf_reachable (fm : FrameManager) (h : ReachableFM fm) : Wf fm := by
  induction h with
  | base => exact wf_default
  | attached fm id p _ ih => exact wf_attach fm id p ih
  | navigated fm fm' cf _ heq ih => exact wf_navigated fm cf fm' heq ih
  | withinDoc fm ev _ ih => exact wf_within_document fm ev ih
  | stopped fm ev _ ih => exact wf_stopped_loading fm ev ih
  | lifecycle fm ev _ ih => exact wf_lifecycle fm ev ih
  | detached fm ev _ ih => exact wf_detach fm ev ih
  | frameTree fm fm' t _ heq ih => exact wf_onFrameTree fm t fm' heq ih

/-- C8: in every state reachable from the empty manager by the event
operations, the parent/child relation is consistent — every recorded
parent is tracked and lists the frame as its child, every recorded child
is tracked and points back at its parent — and following parent links
never revisits a frame. -/
theorem reachable_frame_tree_consistent (fm : FrameManager)
    (h : ReachableFM fm) :
    (∀ k f p, lookupF fm.frames k = some f → f.parent_frame = some p →
        ∃ g, lookupF fm.frames p = some g ∧ k ∈ g.child_frames)
    ∧ (∀ k f c, lookupF fm.frames k = some f → c ∈ f.child_frames →
        ∃ g, lookupF fm.frames c = some g ∧ g.parent_frame = some k)
    ∧ (∀ k, ¬ Relation.TransGen (parentStep fm.frames) k k) := by
  obtain ⟨hkm, hco, hpar, hroot, rank, hrank⟩ := wf_reachable fm h
  refine ⟨hpar, ?_, ?_⟩
  · intro k f c hk hc
    rcases hco k f c hk hc with hF | h2
    · exact hF.elim
    · exact h2
  · intro k hcyc
    have hdec : ∀ a b, Relation.TransGen (parentStep fm.frames) a b →
        rank b < rank a := by
      intro a b hab
      induction hab with
      | single hstep =>
          obtain ⟨f, hf, hp⟩ := hstep
          exact hrank _ f _ hf hp
      | tail _ hstep ih =>
          obtain ⟨f, hf, hp⟩ := hstep
          exact lt_trans (hrank _ f _ hf hp) ih
    exact absurd (hdec k k hcyc) (lt_irrefl _)

/-- C8 witness: the consistency statement at a concrete reachable state,
a main frame `R` with one attached child `C`. -/
theorem reachable_frame_tree_consistent_witness :
    (∀ k f p,
        lookupF (FrameManager.on_frame_attached
          { main_frame := some "R",
            frames := [("R", { parent_frame := none, id := "R", loader_id := none, url := some "u", child_frames := [], name := none, lifecycle_events := [] })],
            timeout := REQUEST_TIMEOUT, pending_navigations := [],
            navigation := none } "C" (some "R")).frames k = some f →
        f.parent_frame = some p →
        ∃ g, lookupF (FrameManager.on_frame_attached
          { main_frame := some "R",
            frames := [("R", { parent_frame := none, id := "R", loader_id := none, url := some "u", child_frames := [], name := none, lifecycle_events := [] })],
            timeout := REQUEST_TIMEOUT, pending_navigations := [],
            navigation := none } "C" (some "R")).frames p = some g
          ∧ k ∈ g.child_frames)
    ∧ (∀ k f c,
        lookupF (FrameManager.on_frame_attached
          { main_frame := some "R",
            frames := [("R", { parent_frame := none, id := "R", loader_id := none, url := some "u", child_frames := [], name := none, lifecycle_events := [] })],
            timeout := REQUEST_TIMEOUT, pending_navigations := [],
            navigation := none } "C" (some "R")).frames k = some f →
        c ∈ f.child_frames →
        ∃ g, lookupF (FrameManager.on_frame_attached
          { main_frame := some "R",
            frames := [("R", { parent_frame := none, id := "R", loader_id := none, url := some "u", child_frames := [], name := none, lifecycle_events := [] })],
            timeout := REQUEST_TIMEOUT, pending_navigations := [],
            navigation := none } "C" (some "R")).frames c = some g
          ∧ g.parent_frame = some k)
    ∧ (∀ k, ¬ Relation.TransGen (parentStep (FrameManager.on_frame_attached
          { main_frame := some "R",
            frames := [("R", { parent_frame := none, id := "R", loader_id := none, url := some "u", child_frames := [], name := none, lifecycle_events := [] })],
            timeout := REQUEST_TIMEOUT, pending_navigations := [],
            navigation := none } "C" (some "R")).frames) k k) :=
  reachable_frame_tree_consistent _
    (ReachableFM.attached _ "C" (some "R")
      (ReachableFM.navigated FrameManager.default _
        { id := "R", parent_id := none, loader_id := "L", url := "u", url_fragment := none, name := none }
        ReachableFM.base (by rfl)))

end Chromiumoxide
